import Mathlib

/-!
Verification of the CSV bulk-import pipeline
(`apps/uploads/services.py`, `apps/uploads/tasks.py`, `apps/uploads/api.py`,
`apps/products/services.py`) of the product-importer repository.

The Python code is shallowly embedded: each Python function becomes a Lean
definition with the same name (modulo a leading underscore), strings stay
`String`, Python dicts become insertion-ordered association lists, and the
database becomes explicit state threaded through the functions.  The model
covers the happy I/O path: `bulk_create` returns the assigned identities
(the PostgreSQL path the source comments describe) and database writes do
not raise, so the exception-driven per-record fallback of
`_process_micro_batch` is never entered and batches contribute no errors.
-/

namespace ImporterModel

/-- Python `str.strip()` on a list of characters: drop whitespace at both ends. -/
def stripChars (cs : List Char) : List Char :=
  ((cs.dropWhile Char.isWhitespace).reverse.dropWhile Char.isWhitespace).reverse

/-- Python `str.strip()`. -/
def pyStrip (s : String) : String :=
  ⟨stripChars s.data⟩

/-- Python `str.lower()` (ASCII letters, which is all the pipeline compares). -/
def pyLower (s : String) : String :=
  ⟨s.data.map Char.toLower⟩

/-- Helper for `pyTitle`: the Boolean records whether the previous character
was a letter (Python capitalises the first letter of every word). -/
def pyTitleAux : Bool → List Char → List Char
  | _, [] => []
  | prev, c :: cs =>
    if c.isAlpha then
      (if prev then c.toLower else c.toUpper) :: pyTitleAux true cs
    else
      c :: pyTitleAux false cs

/-- Python `str.title()`. -/
def pyTitle (s : String) : String :=
  ⟨pyTitleAux false s.data⟩

/-- Python `l[-100:]` as used for the bounded error log:
`all_errors[-100:] if len(all_errors) > 100 else all_errors`. -/
def pyTail100 {α : Type} (l : List α) : List α :=
  if 100 < l.length then l.drop (l.length - 100) else l

/-! ### Python dicts as insertion-ordered association lists -/

/-- Python `d[k] = v`: overwrite in place if the key exists, else append. -/
def dictSet {β : Type} (d : List (String × β)) (k : String) (v : β) :
    List (String × β) :=
  if d.any (fun p => p.1 = k) then
    d.map (fun p => if p.1 = k then (k, v) else p)
  else
    d ++ [(k, v)]

/-- Python `d.get(k)` / `k in d` lookup: first binding for the key. -/
def dictGet {β : Type} (d : List (String × β)) (k : String) : Option β :=
  (d.find? (fun p => p.1 = k)).map (fun p => p.2)

/-! ### Data model

`Product` is a committed catalog row (`apps/products/models.Product`);
`ProductRec` is a value of the preloaded SKU dictionary
(`{'id', 'sku', 'name', 'description', 'active'}`, with `id = None` for a
row reserved in the dict before its `bulk_create` commits). -/

structure Product where
  id : Nat
  sku : String
  name : String
  description : String
  active : Bool
deriving DecidableEq, Repr

structure ProductRec where
  id : Option Nat
  sku : String
  name : String
  description : String
  active : Bool
deriving DecidableEq, Repr

/-- The products table. -/
abbrev Store := List Product

/-- The preloaded SKU dictionary (`existing_skus_dict`). -/
abbrev SkuDict := List (String × ProductRec)

/-- An entry of an import job's error log: `{'row', 'sku', 'error'}`.
The failure write of the task persists an entry with no row/sku. -/
structure ErrEntry where
  row : Option Nat
  sku : Option String
  error : String
deriving DecidableEq, Repr

/-- A CSV record as produced by `csv.DictReader` and `normalize_csv_record`:
an insertion-ordered dict from column name to raw value. -/
abbrev CsvRecord := List (String × String)

/-- `record.get(k)`. -/
def recGet (record : CsvRecord) (k : String) : Option String :=
  dictGet record k

/-- A parsed CSV file: the header row and the data rows (each data row a
list of cell values, one per header, as `csv.DictReader` pairs them). -/
structure CsvFile where
  headers : List String
  rows : List (List String)
deriving Repr

/-! ### `apps/uploads/services.py`: normalisation, validation, preload -/

/-- `normalize_csv_record`: rebuild the record dict with each key sent to
`key.strip().title()` (later keys overwrite earlier ones). -/
def normalize_csv_record (record : CsvRecord) : CsvRecord :=
  record.foldl (fun normalized kv =>
    dictSet normalized (pyTitle (pyStrip kv.1)) kv.2) []

/-- `validate_csv_record`: returns `(is_valid, error_message)`.
`sku = (record.get('Sku') or '').strip()`, likewise for `Name`. -/
def validate_csv_record (record : CsvRecord) : Bool × Option String :=
  let sku := pyStrip ((recGet record "Sku").getD "")
  let name := pyStrip ((recGet record "Name").getD "")
  if sku = "" then (false, some "SKU is required")
  else if name = "" then (false, some "Name is required")
  else (true, none)

/-- `preload_existing_skus`: one full scan of the store, keyed by
`product['sku'].lower()`, first occurrence kept on (impossible) duplicates. -/
def preload_existing_skus (store : Store) : SkuDict :=
  store.foldl (fun sku_dict product =>
    let sku_lower := pyLower product.sku
    if (dictGet sku_dict sku_lower).isSome then sku_dict
    else dictSet sku_dict sku_lower
      ⟨some product.id, product.sku, product.name, product.description,
        product.active⟩) []

/-- `validate_csv_headers`: requires the title-cased header set to contain
`Sku`, `Name` and `Description`.  (The interpolated text of the failure
message is abbreviated; no claim depends on it.) -/
def validate_csv_headers (fieldnames : List String) : Bool × Option String :=
  if fieldnames = [] then
    (false, some "CSV file is empty or has no headers")
  else
    let normalized_headers := fieldnames.map (fun h => pyTitle (pyStrip h))
    let missing :=
      (["Sku", "Name", "Description"].filter
        (fun f => ¬ normalized_headers.contains f))
    if missing ≠ [] then
      (false, some "CSV file is missing required columns")
    else
      (true, none)

/-- `count_csv_records`: header check, then the number of data rows
(`ValueError` modelled as `Except.error`). -/
def count_csv_records (file : CsvFile) : Except String Nat :=
  match validate_csv_headers file.headers with
  | (false, msg) => .error (msg.getD "")
  | (true, _) => .ok file.rows.length

/-- `csv.DictReader` row construction: pair the header names with the row's
cells (rows are taken to have one cell per header). -/
def dictReaderRow (headers : List String) (row : List String) : CsvRecord :=
  (headers.zip row).foldl (fun d kv => dictSet d kv.1 kv.2) []

/-- `stream_csv_from_s3`: header check, then the lazily yielded sequence of
`(normalize_csv_record(record), row_number)` pairs, row numbers from 2. -/
def stream_csv_from_s3 (file : CsvFile) :
    Except String (List (CsvRecord × Nat)) :=
  match validate_csv_headers file.headers with
  | (false, msg) => .error (msg.getD "")
  | (true, _) =>
      .ok ((file.rows.enumFrom 2).map
        (fun p => (normalize_csv_record (dictReaderRow file.headers p.2), p.1)))

/-! ### The `ImportJob` record and `update_import_job_status` -/

/-- The persisted fields of `apps/uploads/models.ImportJob` that the update
logic touches (timestamps are modelled as set/unset flags). -/
structure ImportJob where
  status : String
  phase : String
  progress : Nat
  total_records : Nat
  processed_records : Nat
  errors : List ErrEntry
  celery_task_id : Option String
  s3_key : Option String
  file_size : Nat
  completed_at_set : Bool
deriving DecidableEq, Repr

/-- A fresh job as `create_import_job` makes it (model defaults of the
Django fields). -/
def newImportJob : ImportJob :=
  ⟨"pending", "uploading", 0, 0, 0, [], none, none, 0, false⟩

/-- The keyword arguments of `update_import_job_status`. -/
structure UpdateArgs where
  status : Option String
  phase : Option String
  progress : Option Nat
  processed_records : Option Nat
  total_records : Option Nat
  errors : Option (List ErrEntry)
  celery_task_id : Option String
  s3_key : Option String
  file_size : Option Nat
  update_fields : Option (List String)
deriving DecidableEq, Repr

/-- All-`none` argument record, to be updated per call site. -/
def noArgs : UpdateArgs :=
  ⟨none, none, none, none, none, none, none, none, none, none⟩

/-- `job.save(update_fields=fields)`: copy exactly the named fields from the
in-memory instance `mem` onto the stored row `db`. -/
def applySave (db mem : ImportJob) (fields : List String) : ImportJob :=
  { status := if fields.contains "status" then mem.status else db.status
    phase := if fields.contains "phase" then mem.phase else db.phase
    progress := if fields.contains "progress" then mem.progress else db.progress
    total_records :=
      if fields.contains "total_records" then mem.total_records
      else db.total_records
    processed_records :=
      if fields.contains "processed_records" then mem.processed_records
      else db.processed_records
    errors := if fields.contains "errors" then mem.errors else db.errors
    celery_task_id :=
      if fields.contains "celery_task_id" then mem.celery_task_id
      else db.celery_task_id
    s3_key := if fields.contains "s3_key" then mem.s3_key else db.s3_key
    file_size :=
      if fields.contains "file_size" then mem.file_size else db.file_size
    completed_at_set :=
      if fields.contains "completed_at" then mem.completed_at_set
      else db.completed_at_set }

/-- A persisted save: the field names written and the stored row after the
write. -/
structure SaveOp where
  fields : List String
  job : ImportJob
deriving Repr

/-- The body of `update_import_job_status` after the job has been fetched:
returns the job object the function returns, the new stored row, and the
save that happened (`none` when the cancelled-guard suppressed the write).
Mirrors `services.py` lines 27-99, including the progress-from-phase
computation and the `update_fields` override. -/
def update_job_core (job : ImportJob) (a : UpdateArgs) :
    ImportJob × ImportJob × Option SaveOp :=
  if job.status = "cancelled" then
    (job, job, none)
  else
    let mem := job
    let fields : List String := []
    let (mem, fields) :=
      match a.status with
      | none => (mem, fields)
      | some s =>
        let mem := { mem with status := s }
        let fields := fields ++ ["status"]
        if s = "completed" ∨ s = "failed" ∨ s = "cancelled" then
          ({ mem with completed_at_set := true }, fields ++ ["completed_at"])
        else (mem, fields)
    let (mem, fields) :=
      match a.phase with
      | none => (mem, fields)
      | some p => ({ mem with phase := p }, fields ++ ["phase"])
    let progress : Option Nat :=
      match a.progress, a.phase with
      | none, some ph =>
        if ph = "uploading" then some 5
        else if ph = "parsing" then some 15
        else if ph = "processing" ∧ a.processed_records.isSome ∧
            (a.total_records.getD 0) ≠ 0 then
          let p := a.processed_records.getD 0
          let t := a.total_records.getD 0
          some (min (20 + p * 80 / t) 99)
        else if ph = "completed" then some 100
        else none
      | p, _ => p
    let (mem, fields) :=
      match progress with
      | none => (mem, fields)
      | some v => ({ mem with progress := v }, fields ++ ["progress"])
    let (mem, fields) :=
      match a.processed_records with
      | none => (mem, fields)
      | some v =>
        ({ mem with processed_records := v }, fields ++ ["processed_records"])
    let (mem, fields) :=
      match a.total_records with
      | none => (mem, fields)
      | some v => ({ mem with total_records := v }, fields ++ ["total_records"])
    let (mem, fields) :=
      match a.errors with
      | none => (mem, fields)
      | some v => ({ mem with errors := v }, fields ++ ["errors"])
    let (mem, fields) :=
      match a.celery_task_id with
      | none => (mem, fields)
      | some v => ({ mem with celery_task_id := some v },
          fields ++ ["celery_task_id"])
    let (mem, fields) :=
      match a.s3_key with
      | none => (mem, fields)
      | some v => ({ mem with s3_key := some v }, fields ++ ["s3_key"])
    let (mem, fields) :=
      match a.file_size with
      | none => (mem, fields)
      | some v => ({ mem with file_size := v }, fields ++ ["file_size"])
    let fields := fields ++ ["last_updated_at"]
    let fields :=
      match a.update_fields with
      | some uf => if uf ≠ [] then uf else fields
      | none => fields
    let saved := applySave job mem fields
    (mem, saved, some ⟨fields, saved⟩)

/-- The jobs table: id → stored row. -/
abbrev JobStore := List (Nat × ImportJob)

/-- `get_import_job_by_id`. -/
def get_import_job_by_id (jobs : JobStore) (job_id : Nat) : Option ImportJob :=
  (jobs.find? (fun p => p.1 = job_id)).map (fun p => p.2)

/-- `update_import_job_status` against the jobs table: fetch, possibly
update, and return `(returned job, new table)`. -/
def update_import_job_status (jobs : JobStore) (job_id : Nat) (a : UpdateArgs) :
    Option ImportJob × JobStore :=
  match get_import_job_by_id jobs job_id with
  | none => (none, jobs)
  | some job =>
    let (ret, saved, op) := update_job_core job a
    match op with
    | none => (some ret, jobs)
    | some _ =>
      (some ret, jobs.map (fun p => if p.1 = job_id then (job_id, saved) else p))

/-! ### `_process_micro_batch` -/

/-- An element of `micro_batch` (built from a validated record). -/
structure RowData where
  sku : String
  name : String
  description : String
  active : Bool
  row_number : Nat
deriving DecidableEq, Repr

/-- The loop state of the partition loop of `_process_micro_batch`. -/
structure PartitionState where
  products_to_update : List Product
  products_to_create : List RowData
  skus_in_create_batch : List String
  dict : SkuDict
deriving Repr

/-- One iteration of the partition loop (`services.py` lines 470-526). -/
def partition_step (st : PartitionState) (product_data : RowData) :
    PartitionState :=
  let sku_lower := pyLower product_data.sku
  match dictGet st.dict sku_lower with
  | some existing =>
    match existing.id with
    | some i =>
      if existing.name ≠ product_data.name ∨
          existing.description ≠ product_data.description ∨
          existing.active ≠ product_data.active then
        { st with
          products_to_update := st.products_to_update ++
            [⟨i, existing.sku, product_data.name, product_data.description,
              product_data.active⟩]
          dict := dictSet st.dict sku_lower
            ⟨some i, existing.sku, product_data.name,
              product_data.description, product_data.active⟩ }
      else st
    | none =>
      if st.skus_in_create_batch.contains sku_lower then st
      else
        { st with
          products_to_create := st.products_to_create ++ [product_data]
          skus_in_create_batch := st.skus_in_create_batch ++ [sku_lower] }
  | none =>
    if st.skus_in_create_batch.contains sku_lower then st
    else
      { st with
        products_to_create := st.products_to_create ++ [product_data]
        skus_in_create_batch := st.skus_in_create_batch ++ [sku_lower]
        dict := dictSet st.dict sku_lower
          ⟨none, product_data.sku, product_data.name,
            product_data.description, product_data.active⟩ }

/-- `Product.objects.bulk_update(products_to_update, ['name', 'description',
'active'])`: apply each update object in order to the rows sharing its id. -/
def bulk_update (store : Store) (ups : List Product) : Store :=
  ups.foldl (fun store u =>
    store.map (fun p =>
      if p.id = u.id then
        { p with name := u.name, description := u.description,
                 active := u.active }
      else p)) store

/-- The next id the database sequence assigns. -/
def nextId (store : Store) : Nat :=
  store.foldl (fun m p => max m p.id) 0 + 1

/-- `Product.objects.bulk_create(products_to_create)` with identities
returned (the PostgreSQL path): returns the new table and the created rows. -/
def bulk_create (store : Store) (crs : List RowData) : Store × List Product :=
  let created := crs.enum.map (fun p =>
    (⟨nextId store + p.1, p.2.sku, p.2.name, p.2.description, p.2.active⟩ :
      Product))
  (store ++ created, created)

/-- Backfill of the SKU dictionary with the created ids
(`services.py` lines 546-550). -/
def backfill_ids (dict : SkuDict) (created : List Product) : SkuDict :=
  created.foldl (fun dict c =>
    let sku_lower := pyLower c.sku
    match dictGet dict sku_lower with
    | some e => dictSet dict sku_lower { e with id := some c.id }
    | none => dict) dict

/-- `_process_micro_batch` on the happy path (the transaction commits, so
the per-record fallback is not entered): returns
`(processed, errors, dict, store)`. -/
def process_micro_batch (micro_batch : List RowData) (dict : SkuDict)
    (store : Store) : Nat × List ErrEntry × SkuDict × Store :=
  let st := micro_batch.foldl partition_step ⟨[], [], [], dict⟩
  let store := bulk_update store st.products_to_update
  let (store, created) := bulk_create store st.products_to_create
  let dict := backfill_ids st.dict created
  (micro_batch.length, [], dict, store)

/-! ### `process_csv_stream` -/

/-- Observable events of one run of `process_csv_stream`, in order:
a committed micro-batch (catalog writes), the cancellation observation of
the 1000-record refresh, or a progress-persistence attempt
(`update_import_job_status` call) tagged with `records_seen`. -/
inductive StreamEvent where
  | commit (batch : List RowData)
  | observe (records_seen : Nat)
  | persist (records_seen : Nat) (args : UpdateArgs)
deriving DecidableEq

/-- The loop state of `process_csv_stream`. -/
structure StreamState where
  total_processed : Nat
  total_errors : Nat
  all_errors : List ErrEntry
  micro_batch : List RowData
  batch_count : Nat
  records_seen : Nat
  dict : SkuDict
  store : Store
  trace : List StreamEvent
  cancelled : Bool

/-- Does the stored job read as cancelled when `records_seen` records have
been consumed?  `sig = some c` means an external cancel request lands once
`c` records have been seen. -/
def sigCancelled (sig : Option Nat) (records_seen : Nat) : Bool :=
  match sig with
  | none => false
  | some c => c ≤ records_seen

/-- The `update_import_job_status` argument record of the per-batch progress
write (`services.py` lines 407-420). -/
def progressArgs (total_processed total_records : Nat)
    (all_errors : List ErrEntry) : UpdateArgs :=
  { noArgs with
      phase := some "processing"
      status := some "processing"
      progress := some (min
        (if 0 < total_records then total_processed * 80 / total_records + 20
         else 20) 99)
      processed_records := some total_processed
      errors := some (pyTail100 all_errors)
      update_fields := some ["phase", "status", "progress",
        "processed_records", "errors", "last_updated_at"] }

/-- The element of `micro_batch` built from a validated record
(`services.py` lines 384-394: the stripped `Sku`, `Name` and `Description`
values, `active=True`, and the row number). -/
def rowOf (record : CsvRecord) (row_number : Nat) : RowData :=
  ⟨pyStrip ((recGet record "Sku").getD ""),
   pyStrip ((recGet record "Name").getD ""),
   pyStrip ((recGet record "Description").getD ""), true, row_number⟩

/-- The `for record, row_number in csv_generator` loop of
`process_csv_stream` (lines 360-426). -/
def stream_loop (sig : Option Nat) (total_records : Nat)
    (micro_batch_size : Nat) :
    List (CsvRecord × Nat) → StreamState → StreamState
  | [], st => st
  | (record, _row_number) :: rest, st =>
    let records_seen := st.records_seen + 1
    if records_seen % 1000 = 0 ∧ sigCancelled sig records_seen then
      { st with records_seen := records_seen, cancelled := true,
                trace := st.trace ++ [.observe records_seen] }
    else
      match validate_csv_record record with
      | (false, error_msg) =>
        let sku_value := pyStrip ((recGet record "Sku").getD "")
        stream_loop sig total_records micro_batch_size rest
          { st with
            records_seen := records_seen
            total_errors := st.total_errors + 1
            all_errors := st.all_errors ++
              [⟨some _row_number, some sku_value, error_msg.getD ""⟩] }
      | (true, _) =>
        let micro_batch := st.micro_batch ++ [rowOf record _row_number]
        if micro_batch_size ≤ micro_batch.length then
          let (processed, errors, dict, store) :=
            process_micro_batch micro_batch st.dict st.store
          let total_processed := st.total_processed + processed
          let all_errors := st.all_errors ++ errors
          stream_loop sig total_records micro_batch_size rest
            { total_processed := total_processed
              total_errors := st.total_errors + errors.length
              all_errors := all_errors
              micro_batch := []
              batch_count := st.batch_count + 1
              records_seen := records_seen
              dict := dict
              store := store
              trace := st.trace ++ [.commit micro_batch,
                .persist records_seen
                  (progressArgs total_processed total_records all_errors)]
              cancelled := st.cancelled }
        else
          stream_loop sig total_records micro_batch_size rest
            { st with records_seen := records_seen,
                      micro_batch := micro_batch }

/-- The result of `process_csv_stream`, with the event trace kept for the
statements about writes. -/
structure StreamOut where
  total_processed : Nat
  total_errors : Nat
  all_errors : List ErrEntry
  dict : SkuDict
  store : Store
  trace : List StreamEvent
  cancelled : Bool
  records_seen : Nat

/-- `process_csv_stream` (lines 326-439): run the loop, then flush the
remaining `micro_batch` (which happens on normal exhaustion and after a
cancellation `break` alike). -/
def process_csv_stream (sig : Option Nat) (generator : List (CsvRecord × Nat))
    (existing_skus_dict : SkuDict) (store : Store) (total_records : Nat)
    (micro_batch_size : Nat) : StreamOut :=
  let st := stream_loop sig total_records micro_batch_size generator
    ⟨0, 0, [], [], 0, 0, existing_skus_dict, store, [], false⟩
  if st.micro_batch ≠ [] then
    let (processed, errors, dict, store) :=
      process_micro_batch st.micro_batch st.dict st.store
    ⟨st.total_processed + processed, st.total_errors + errors.length,
      st.all_errors ++ errors, dict, store,
      st.trace ++ [.commit st.micro_batch], st.cancelled, st.records_seen⟩
  else
    ⟨st.total_processed, st.total_errors, st.all_errors, st.dict, st.store,
      st.trace, st.cancelled, st.records_seen⟩

/-! ### `process_csv_import_task` (`apps/uploads/tasks.py`)

The external cancellation flow (`ImportJobCancelAPIView.post`) writes
`status='cancelled'` to the job row at some point of the record-consumption
timeline; `sig = some c` models that write landing once `c` records have
been consumed (all earlier checkpoints of the task read at time 0). -/

/-- The job row as a reader sees it at consumption time `t`. -/
def readJob (sig : Option Nat) (t : Nat) (job : ImportJob) : ImportJob :=
  if sigCancelled sig t then { job with status := "cancelled" } else job

/-- One `update_import_job_status` call at consumption time `t`: the guard
reads the stored row (with the cancel write applied when it has landed). -/
def applyUpdate (sig : Option Nat) (t : Nat) (job : ImportJob)
    (a : UpdateArgs) : ImportJob × Option SaveOp :=
  let job := readJob sig t job
  let (_, saved, op) := update_job_core job a
  match op with
  | none => (job, none)
  | some _ => (saved, op)

/-- Replay the progress persists of a stream trace through
`update_import_job_status`, in trace order. -/
def replayPersists (sig : Option Nat) (job : ImportJob) :
    List StreamEvent → ImportJob × List SaveOp
  | [] => (job, [])
  | .persist t a :: rest =>
    let (job, op) := applyUpdate sig t job a
    let (job, ops) := replayPersists sig job rest
    (job, op.toList ++ ops)
  | _ :: rest => replayPersists sig job rest

/-- The outcome of one run of `process_csv_import_task`. -/
structure TaskOut where
  writes : List SaveOp
  job : ImportJob
  store : Store
  stream : Option StreamOut
  failed : Bool

/-- The first write of the task (`tasks.py` lines 38-46). -/
def startArgs : UpdateArgs :=
  { noArgs with
      status := some "processing"
      phase := some "parsing"
      progress := some 15
      processed_records := some 0
      celery_task_id := some "task-id"
      update_fields := some ["status", "phase", "progress",
        "processed_records", "celery_task_id", "last_updated_at"] }

/-- The `total_records` write (`tasks.py` lines 70-74). -/
def totalArgs (total_records : Nat) : UpdateArgs :=
  { noArgs with
      total_records := some total_records
      update_fields := some ["total_records", "last_updated_at"] }

/-- The completion write (`tasks.py` lines 102-111). -/
def completedArgs (processed_count total_records : Nat)
    (errors : List ErrEntry) : UpdateArgs :=
  { noArgs with
      status := some "completed"
      phase := some "completed"
      progress := some 100
      processed_records := some processed_count
      total_records := some total_records
      errors := some (pyTail100 errors)
      update_fields := some ["status", "phase", "progress",
        "processed_records", "total_records", "errors", "completed_at",
        "last_updated_at"] }

/-- The failure write of the `except` branch (`tasks.py` lines 120-126). -/
def failArgs (msg : String) : UpdateArgs :=
  { noArgs with
      status := some "failed"
      progress := some 0
      errors := some [⟨none, none, msg⟩]
      update_fields := some ["status", "progress", "errors", "completed_at",
        "last_updated_at"] }

/-- `process_csv_import_task`: start write, cancellation checkpoints,
preload, count pass (whose header `ValueError` is the one modelled failure),
`total_records` write, the stream, and the final completion write. -/
def process_csv_import_task (file : CsvFile) (store : Store)
    (sig : Option Nat) (job : ImportJob) : TaskOut :=
  let (job, op1) := applyUpdate sig 0 job startArgs
  let writes := op1.toList
  if (readJob sig 0 job).status = "cancelled" then
    ⟨writes, readJob sig 0 job, store, none, false⟩
  else
    let existing_skus_dict := preload_existing_skus store
    if (readJob sig 0 job).status = "cancelled" then
      ⟨writes, readJob sig 0 job, store, none, false⟩
    else
      match count_csv_records file with
      | .error msg =>
        let (job, opF) := applyUpdate sig 0 job (failArgs msg)
        ⟨writes ++ opF.toList, readJob sig 0 job, store, none, true⟩
      | .ok total_records =>
        let (job, op2) := applyUpdate sig 0 job (totalArgs total_records)
        let writes := writes ++ op2.toList
        if (readJob sig 0 job).status = "cancelled" then
          ⟨writes, readJob sig 0 job, store, none, false⟩
        else
          match stream_csv_from_s3 file with
          | .error msg =>
            let (job, opF) := applyUpdate sig 0 job (failArgs msg)
            ⟨writes ++ opF.toList, readJob sig 0 job, store, none, true⟩
          | .ok csv_generator =>
            let so := process_csv_stream sig csv_generator
              existing_skus_dict store total_records 500
            let (job, streamOps) := replayPersists sig job so.trace
            let writes := writes ++ streamOps
            let t := so.records_seen
            if (readJob sig t job).status = "cancelled" then
              ⟨writes, readJob sig t job, so.store, some so, false⟩
            else
              let (job, opC) := applyUpdate sig t job
                (completedArgs so.total_processed total_records so.all_errors)
              ⟨writes ++ opC.toList, readJob sig t job, so.store, some so,
                false⟩

/-! ### Derived notions used by the claim statements -/

/-- The stripped `Sku` value of a record, as the pipeline computes it. -/
def skuOf (record : CsvRecord) : String :=
  pyStrip ((recGet record "Sku").getD "")

/-- The stripped `Name` value of a record. -/
def nameOf (record : CsvRecord) : String :=
  pyStrip ((recGet record "Name").getD "")

/-- The stripped `Description` value of a record. -/
def descOf (record : CsvRecord) : String :=
  pyStrip ((recGet record "Description").getD "")

/-- The record/row pairs `stream_csv_from_s3` yields for a file whose
headers pass validation. -/
def csvGen (file : CsvFile) : List (CsvRecord × Nat) :=
  (file.rows.enumFrom 2).map
    (fun p => (normalize_csv_record (dictReaderRow file.headers p.2), p.1))

/-- The sequence of progress values actually persisted by a list of saves:
the stored `progress` of every save whose field list names `progress`. -/
def progressSeq (writes : List SaveOp) : List Nat :=
  writes.filterMap (fun w =>
    if w.fields.contains "progress" then some w.job.progress else none)

/-- The error-log entries the stream accumulates, stated independently of
the loop: one entry per invalid record, carrying its row number. -/
def invalidSpec (gen : List (CsvRecord × Nat)) : List ErrEntry :=
  gen.filterMap (fun p =>
    match validate_csv_record p.1 with
    | (false, msg) => some ⟨some p.2, some (skuOf p.1), msg.getD ""⟩
    | (true, _) => none)

/-- Tag of a stream event, for stating trace shapes on concrete runs:
`0` = catalog commit, `1` = progress persist, `2` = cancellation observed. -/
def eventKind : StreamEvent → Nat
  | .commit _ => 0
  | .persist _ _ => 1
  | .observe _ => 2

/-- Total number of records committed by the catalog writes of a trace. -/
def commitSum (trace : List StreamEvent) : Nat :=
  (trace.map (fun e => match e with
    | .commit b => b.length
    | _ => 0)).sum

/-- Progress values of the persist attempts of a trace, in order. -/
def persistProgs (trace : List StreamEvent) : List Nat :=
  trace.filterMap (fun e => match e with
    | .persist _ a => a.progress
    | _ => none)

/-- The progress value a per-batch status write carries
(`services.py` lines 409-410): `20 + processed/total*80`, floored, capped
at 99, and `20` when the total is zero. -/
def progFormula (total_records total_processed : Nat) : Nat :=
  min (if 0 < total_records then total_processed * 80 / total_records + 20
       else 20) 99

/-- The control-flow skeleton of a loop state: only the counters and the
event kinds, forgetting record contents — enough to settle trace shapes of
all-valid runs without evaluating the records themselves. -/
structure SkelState where
  total_processed : Nat
  micro_len : Nat
  records_seen : Nat
  kinds : List Nat
  cancelled : Bool
deriving DecidableEq, Repr

/-- The skeleton of `stream_loop` on a run of valid records: each record
either triggers the cancellation observation (kind `2`), fills the
micro-batch and commits it with its progress persist (kinds `0, 1`), or is
just accumulated. -/
def skel_run (sig : Option Nat) (bsz : Nat) : Nat → SkelState → SkelState
  | 0, s => s
  | k + 1, s =>
    let seen := s.records_seen + 1
    if seen % 1000 = 0 ∧ sigCancelled sig seen then
      { s with records_seen := seen, cancelled := true,
               kinds := s.kinds ++ [2] }
    else if bsz ≤ s.micro_len + 1 then
      skel_run sig bsz k
        ⟨s.total_processed + (s.micro_len + 1), 0, seen,
         s.kinds ++ [0, 1], s.cancelled⟩
    else
      skel_run sig bsz k
        { s with records_seen := seen, micro_len := s.micro_len + 1 }

/-- The `(id, sku)` projection of the catalog: what "no new entry and same
identities" compares. -/
def storeIdSku (store : Store) : List (Nat × String) :=
  store.map (fun p => (p.id, p.sku))

/-- The folded keys present in the catalog. -/
def storeKeys (store : Store) : List String :=
  store.map (fun p => pyLower p.sku)

/-- Key `k` is covered by the dictionary: bound to an entry that already has
a database identity. -/
def Cov (d : SkuDict) (k : String) : Prop :=
  ∃ e, dictGet d k = some e ∧ e.id.isSome

/-- The dictionary is consistent with the catalog: every entry that carries
an identity points at a catalog row whose folded SKU is the entry's key. -/
def DictInv (d : SkuDict) (store : Store) : Prop :=
  ∀ kv ∈ d, ∀ i, kv.2.id = some i →
    ∃ p ∈ store, p.id = i ∧ pyLower p.sku = kv.1

/-- All dictionary keys are the case-folded form of their entry's SKU. -/
def KeysLowered (d : SkuDict) : Prop :=
  ∀ kv ∈ d, kv.1 = pyLower kv.2.sku

/-! ### Concrete runs used by counterexamples and witnesses -/

/-- The spec's end-to-end 3-row file (its `Key` column is the code's `Sku`).
Rows 2 and 3 have keys equal after case-folding; row 4 has an empty key. -/
def file3 : CsvFile :=
  ⟨["Sku", "Name", "Description"],
   [["A1", "Widget", "x"], ["a1", "Widget Pro", "y"], ["", "NoKey", "z"]]⟩

/-- A file whose header lacks the required `Description` column. -/
def fileBadHeader : CsvFile := ⟨["Sku", "Name"], []⟩

/-- A single valid record (`Sku=a`, `Name=n`). -/
def recA : CsvRecord := [("Sku", "a"), ("Name", "n"), ("Description", "")]

/-- A 1000-record generator of copies of `recA`, row numbers 2..1001, as
`stream_csv_from_s3` would yield them. -/
def gen1000 : List (CsvRecord × Nat) :=
  (List.range 1000).map (fun i => (recA, i + 2))

/-- The stream run of `gen1000` with a cancel request landing after the
first record: the first cancellation check that can observe it is the
refresh at `records_seen = 1000`. -/
def cancelRun : StreamOut :=
  process_csv_stream (some 1) gen1000 [] [] 1000 500

/-- A stored job in the terminal state `cancelled`. -/
def cancelledJob : ImportJob := { newImportJob with status := "cancelled" }

/-- A stored job in the terminal state `completed`. -/
def completedJob : ImportJob := { newImportJob with status := "completed" }

/-- A later call passing a fresh non-terminal status. -/
def overwriteArgs : UpdateArgs :=
  { noArgs with
      status := some "processing"
      update_fields := some ["status", "last_updated_at"] }

/-! ## Lemmas about the string and list helpers -/

theorem pyTail100_length_le {α : Type} (l : List α) :
    (pyTail100 l).length ≤ 100 := by
  unfold pyTail100
  split
  · simp only [List.length_drop]
    omega
  · omega

theorem pyTail100_eq_drop {α : Type} (l : List α) (h : 100 < l.length) :
    pyTail100 l = l.drop (l.length - 100) := by
  unfold pyTail100
  simp [h]

/-- `Char.toLower` is idempotent (it maps `[65,90]` into `[97,122]`,
which is outside `[65,90]`). -/
theorem char_toLower_idem (c : Char) : c.toLower.toLower = c.toLower := by
  unfold Char.toLower
  by_cases h : c.toNat ≥ 65 ∧ c.toNat ≤ 90
  · rw [if_pos h]
    have hv : (c.toNat + 32).isValidChar := by
      left
      have : c.toNat ≤ 90 := h.2
      omega
    have ht : (Char.ofNat (c.toNat + 32)).toNat = c.toNat + 32 := by
      simp only [Char.ofNat, hv, dif_pos]
      rfl
    rw [if_neg]
    rw [ht]
    omega
  · rw [if_neg h, if_neg h]

theorem pyLower_idem (s : String) : pyLower (pyLower s) = pyLower s := by
  unfold pyLower
  congr 1
  rw [List.map_map]
  exact List.map_congr_left (fun c _ => char_toLower_idem c)

/-! ## Lemmas about the dictionary operations -/

theorem dictGet_nil {β : Type} (k : String) :
    dictGet ([] : List (String × β)) k = none := rfl

theorem dictGet_cons {β : Type} (p : String × β) (d : List (String × β))
    (k : String) :
    dictGet (p :: d) k = if p.1 = k then some p.2 else dictGet d k := by
  by_cases h : p.1 = k <;> simp [dictGet, List.find?_cons, h]

theorem dictSet_cons_eq {β : Type} {p : String × β} {d : List (String × β)}
    {k : String} (v : β) (hp : p.1 = k) :
    dictSet (p :: d) k v =
      (k, v) :: d.map (fun q => if q.1 = k then (k, v) else q) := by
  unfold dictSet
  rw [if_pos]
  · simp [hp]
  · simp [List.any_cons, hp]

theorem dictSet_cons_ne {β : Type} {p : String × β} {d : List (String × β)}
    {k : String} (v : β) (hp : p.1 ≠ k) :
    dictSet (p :: d) k v = p :: dictSet d k v := by
  unfold dictSet
  by_cases hd : d.any (fun q => q.1 = k)
  · rw [if_pos, if_pos hd]
    · simp [hp]
    · simp [List.any_cons, hp, hd]
  · rw [if_neg, if_neg hd]
    · simp
    · simp [List.any_cons, hp, hd]

theorem dictGet_map_replace {β : Type} (d : List (String × β))
    (k k' : String) (v : β) (hne : k' ≠ k) :
    dictGet (d.map (fun q => if q.1 = k then (k, v) else q)) k' =
      dictGet d k' := by
  induction d with
  | nil => rfl
  | cons q d ih =>
    rw [List.map_cons, dictGet_cons, dictGet_cons]
    by_cases hq : q.1 = k
    · rw [if_pos hq]
      have h1 : ((k, v) : String × β).1 = k' ↔ False := by
        simp [Ne.symm hne]
      have h2 : q.1 = k' ↔ False := by
        constructor
        · intro h; rw [hq] at h; exact hne h.symm
        · exact False.elim
      simp only [h1, h2, if_false]
      exact ih
    · rw [if_neg hq]
      by_cases hq' : q.1 = k'
      · rw [if_pos hq', if_pos hq']
      · rw [if_neg hq', if_neg hq']
        exact ih

theorem dictGet_dictSet_self {β : Type} (d : List (String × β)) (k : String)
    (v : β) : dictGet (dictSet d k v) k = some v := by
  induction d with
  | nil =>
    show dictGet (dictSet [] k v) k = some v
    unfold dictSet
    simp [dictGet_cons]
  | cons p d ih =>
    by_cases hp : p.1 = k
    · rw [dictSet_cons_eq v hp, dictGet_cons]
      simp
    · rw [dictSet_cons_ne v hp, dictGet_cons, if_neg hp]
      exact ih

theorem dictGet_dictSet_ne {β : Type} (d : List (String × β)) (k k' : String)
    (v : β) (hne : k' ≠ k) : dictGet (dictSet d k v) k' = dictGet d k' := by
  induction d with
  | nil =>
    unfold dictSet
    simp [dictGet_cons, Ne.symm hne]
  | cons p d ih =>
    by_cases hp : p.1 = k
    · rw [dictSet_cons_eq v hp, dictGet_cons, dictGet_cons]
      have h1 : ((k, v) : String × β).1 = k' ↔ False := by simp [Ne.symm hne]
      have h2 : p.1 = k' ↔ False := by
        constructor
        · intro h; rw [hp] at h; exact hne h.symm
        · exact False.elim
      simp only [h1, h2, if_false]
      exact dictGet_map_replace d k k' v hne
    · rw [dictSet_cons_ne v hp, dictGet_cons, dictGet_cons]
      by_cases hp' : p.1 = k'
      · rw [if_pos hp', if_pos hp']
      · rw [if_neg hp', if_neg hp']
        exact ih

theorem mem_dictSet {β : Type} {d : List (String × β)} {k : String} {v : β}
    {kv : String × β} (h : kv ∈ dictSet d k v) : kv = (k, v) ∨ kv ∈ d := by
  induction d with
  | nil =>
    unfold dictSet at h
    simp at h
    exact Or.inl h
  | cons p d ih =>
    by_cases hp : p.1 = k
    · rw [dictSet_cons_eq v hp] at h
      rcases List.mem_cons.mp h with h | h
      · exact Or.inl h
      · obtain ⟨q, hq, hqe⟩ := List.mem_map.mp h
        by_cases hqk : q.1 = k
        · rw [if_pos hqk] at hqe
          exact Or.inl hqe.symm
        · rw [if_neg hqk] at hqe
          exact Or.inr (List.mem_cons.mpr (Or.inr (hqe ▸ hq)))
    · rw [dictSet_cons_ne v hp] at h
      rcases List.mem_cons.mp h with h | h
      · exact Or.inr (List.mem_cons.mpr (Or.inl h))
      · rcases ih h with h | h
        · exact Or.inl h
        · exact Or.inr (List.mem_cons.mpr (Or.inr h))

theorem dictGet_mem {β : Type} {d : List (String × β)} {k : String} {e : β}
    (h : dictGet d k = some e) : (k, e) ∈ d := by
  induction d with
  | nil => simp [dictGet_nil] at h
  | cons p d ih =>
    rw [dictGet_cons] at h
    by_cases hp : p.1 = k
    · rw [if_pos hp] at h
      simp only [Option.some_inj] at h
      have : p = (k, e) := by
        obtain ⟨p1, p2⟩ := p
        simp only at hp h
        rw [hp, h]
      exact List.mem_cons.mpr (Or.inl this.symm)
    · rw [if_neg hp] at h
      exact List.mem_cons.mpr (Or.inr (ih h))

/-! ## C10: guards of `update_import_job_status` -/

/-- C10: for a `job_id` that does not identify an existing job,
`update_import_job_status` returns `None` and performs no write; for an
existing job whose stored status is `cancelled`, it returns the job without
performing any write, whatever the arguments of the later call are. -/
theorem update_status_guards (jobs : JobStore) (job_id : Nat)
    (a : UpdateArgs) :
    (get_import_job_by_id jobs job_id = none →
      update_import_job_status jobs job_id a = (none, jobs)) ∧
    (∀ job, get_import_job_by_id jobs job_id = some job →
      job.status = "cancelled" →
      update_import_job_status jobs job_id a = (some job, jobs)) := by
  constructor
  · intro h
    unfold update_import_job_status
    rw [h]
  · intro job hj hc
    have hcore : update_job_core job a = (job, job, none) := by
      unfold update_job_core
      rw [if_pos hc]
    simp only [update_import_job_status, hj, hcore]

/-- Witness for C10 at a concrete missing id and a concrete cancelled job. -/
theorem update_status_guards_witness :
    update_import_job_status [] 3 startArgs = (none, []) ∧
    update_import_job_status [(1, cancelledJob)] 1 startArgs =
      (some cancelledJob, [(1, cancelledJob)]) :=
  ⟨(update_status_guards [] 3 startArgs).1 rfl,
   (update_status_guards [(1, cancelledJob)] 1 startArgs).2 cancelledJob
     rfl rfl⟩

/-! ## C3: terminal statuses are not all protected -/

/-- C3 counterexample: a stored job whose status is the terminal
`completed` has its status overwritten to `processing` by a later
`update_import_job_status` call — only `cancelled` is guarded. -/
theorem completed_status_overwritten :
    (get_import_job_by_id
      (update_import_job_status [(1, completedJob)] 1 overwriteArgs).2 1).map
        (fun j => j.status) = some "processing" ∧
    ("processing" : String) ≠ "completed" := by
  constructor
  · rfl
  · decide

/-- C3 amended: only the terminal status `cancelled` is sticky: once the
stored status is `cancelled`, no later `update_import_job_status` call
changes it, for any combination of arguments. -/
theorem cancelled_status_sticky (jobs : JobStore) (job_id : Nat)
    (a : UpdateArgs)
    (h : (get_import_job_by_id jobs job_id).map (fun j => j.status) =
      some "cancelled") :
    (get_import_job_by_id (update_import_job_status jobs job_id a).2
      job_id).map (fun j => j.status) = some "cancelled" := by
  rcases hj : get_import_job_by_id jobs job_id with _ | job
  · rw [hj] at h
    simp at h
  · rw [hj] at h
    simp only [Option.map, Option.some_inj] at h
    have hcore : update_job_core job a = (job, job, none) := by
      unfold update_job_core
      rw [if_pos h]
    simp only [update_import_job_status, hj, hcore]
    simp [h]

/-- Witness for the amended C3 at a concrete cancelled job. -/
theorem cancelled_status_sticky_witness :
    (get_import_job_by_id
      (update_import_job_status [(1, cancelledJob)] 1 overwriteArgs).2 1).map
        (fun j => j.status) = some "cancelled" :=
  cancelled_status_sticky [(1, cancelledJob)] 1 overwriteArgs rfl

/-! ## C9: all SKU-cache keys are case-folded -/

theorem keysLowered_dictSet {d : SkuDict} {k : String} {v : ProductRec}
    (hd : KeysLowered d) (hk : k = pyLower v.sku) :
    KeysLowered (dictSet d k v) := by
  intro kv hkv
  rcases mem_dictSet hkv with h | h
  · rw [h]
    exact hk
  · exact hd kv h

theorem keysLowered_preload (store : Store) :
    KeysLowered (preload_existing_skus store) := by
  unfold preload_existing_skus
  suffices h : ∀ d : SkuDict, KeysLowered d →
      KeysLowered (store.foldl (fun sku_dict product =>
        if (dictGet sku_dict (pyLower product.sku)).isSome then sku_dict
        else dictSet sku_dict (pyLower product.sku)
          ⟨some product.id, product.sku, product.name, product.description,
            product.active⟩) d) by
    exact h [] (fun kv hkv => absurd hkv (List.not_mem_nil kv))
  induction store with
  | nil => intro d hd; exact hd
  | cons p store ih =>
    intro d hd
    rw [List.foldl_cons]
    apply ih
    by_cases hs : (dictGet d (pyLower p.sku)).isSome
    · rw [if_pos hs]; exact hd
    · rw [if_neg hs]
      exact keysLowered_dictSet hd rfl

theorem keysLowered_partition_step {st : PartitionState} {pd : RowData}
    (hd : KeysLowered st.dict) : KeysLowered (partition_step st pd).dict := by
  unfold partition_step
  rcases hg : dictGet st.dict (pyLower pd.sku) with _ | e
  · simp only [hg]
    by_cases hc : st.skus_in_create_batch.contains (pyLower pd.sku)
    · rw [if_pos hc]
      exact hd
    · rw [if_neg hc]
      exact keysLowered_dictSet hd rfl
  · simp only [hg]
    rcases hi : e.id with _ | i
    · simp only [hi]
      by_cases hc : st.skus_in_create_batch.contains (pyLower pd.sku)
      · rw [if_pos hc]; exact hd
      · rw [if_neg hc]; exact hd
    · simp only [hi]
      by_cases hne : e.name ≠ pd.name ∨ e.description ≠ pd.description ∨
          e.active ≠ pd.active
      · rw [if_pos hne]
        have hk : pyLower pd.sku = pyLower e.sku := hd _ (dictGet_mem hg)
        exact keysLowered_dictSet hd hk
      · rw [if_neg hne]
        exact hd

theorem keysLowered_partition (mb : List RowData) (st : PartitionState)
    (hd : KeysLowered st.dict) :
    KeysLowered (mb.foldl partition_step st).dict := by
  induction mb generalizing st with
  | nil => exact hd
  | cons pd mb ih =>
    rw [List.foldl_cons]
    exact ih _ (keysLowered_partition_step hd)

theorem keysLowered_backfill (created : List Product) (d : SkuDict)
    (hd : KeysLowered d) : KeysLowered (backfill_ids d created) := by
  unfold backfill_ids
  induction created generalizing d with
  | nil => exact hd
  | cons c created ih =>
    rw [List.foldl_cons]
    apply ih
    rcases hg : dictGet d (pyLower c.sku) with _ | e
    · simp only [hg]
      exact hd
    · simp only [hg]
      have hk : pyLower c.sku = pyLower e.sku := hd _ (dictGet_mem hg)
      exact keysLowered_dictSet hd hk

/-- C9: every key of the in-memory SKU cache is the case-folded (lowercase)
form of a SKU — the key equals `pyLower` of its entry's SKU, and is a fixed
point of `pyLower`.  `preload_existing_skus` establishes the invariant and
`_process_micro_batch` preserves it. -/
theorem sku_cache_keys_case_folded :
    (∀ store : Store, ∀ kv ∈ preload_existing_skus store,
      kv.1 = pyLower kv.2.sku ∧ pyLower kv.1 = kv.1) ∧
    (∀ (mb : List RowData) (d : SkuDict) (s : Store),
      (∀ kv ∈ d, kv.1 = pyLower kv.2.sku) →
      ∀ kv ∈ (process_micro_batch mb d s).2.2.1,
        kv.1 = pyLower kv.2.sku ∧ pyLower kv.1 = kv.1) := by
  have hfix : ∀ kv : String × ProductRec, kv.1 = pyLower kv.2.sku →
      kv.1 = pyLower kv.2.sku ∧ pyLower kv.1 = kv.1 := by
    intro kv h
    refine ⟨h, ?_⟩
    rw [h, pyLower_idem]
  constructor
  · intro store kv hkv
    exact hfix kv (keysLowered_preload store kv hkv)
  · intro mb d s hd kv hkv
    apply hfix
    have h1 : KeysLowered (mb.foldl partition_step ⟨[], [], [], d⟩).dict :=
      keysLowered_partition mb _ hd
    have h2 : KeysLowered (process_micro_batch mb d s).2.2.1 := by
      unfold process_micro_batch
      exact keysLowered_backfill _ _ h1
    exact h2 kv hkv

/-- Witness for C9: a concrete batch on an empty cache produces the cache
`[("abc", ⟨some 1, "AbC", "n", "", true⟩)]`, whose key is case-folded. -/
theorem sku_cache_keys_case_folded_witness :
    ("abc", (⟨some 1, "AbC", "n", "", true⟩ : ProductRec)).1 =
      pyLower (⟨some 1, "AbC", "n", "", true⟩ : ProductRec).sku ∧
    pyLower ("abc", (⟨some 1, "AbC", "n", "", true⟩ : ProductRec)).1 =
      ("abc", (⟨some 1, "AbC", "n", "", true⟩ : ProductRec)).1 :=
  sku_cache_keys_case_folded.2 [⟨"AbC", "n", "", true, 2⟩] [] []
    (by intro kv hkv; exact absurd hkv (List.not_mem_nil kv))
    ("abc", ⟨some 1, "AbC", "n", "", true⟩) (by decide)

/-! ## Projections of `process_micro_batch` -/

theorem process_micro_batch_processed (mb : List RowData) (d : SkuDict)
    (s : Store) : (process_micro_batch mb d s).1 = mb.length := by
  simp only [process_micro_batch]

theorem process_micro_batch_errors (mb : List RowData) (d : SkuDict)
    (s : Store) : (process_micro_batch mb d s).2.1 = [] := by
  simp only [process_micro_batch]

/-- A record passes `validate_csv_record` exactly when its stripped SKU and
name are nonempty. -/
theorem validate_true_iff (record : CsvRecord) :
    (validate_csv_record record).1 = true ↔
      skuOf record ≠ "" ∧ nameOf record ≠ "" := by
  unfold validate_csv_record skuOf nameOf
  by_cases hs : pyStrip ((recGet record "Sku").getD "") = ""
  · simp [hs]
  · by_cases hn : pyStrip ((recGet record "Name").getD "") = ""
    · simp [hs, hn]
    · simp [hs, hn]

/-! ## Step lemmas for `stream_loop` on concrete-shaped inputs -/

theorem stream_loop_nil (sig : Option Nat) (N bsz : Nat) (st : StreamState) :
    stream_loop sig N bsz [] st = st := rfl

/-- One loop iteration on a valid record that neither observes a
cancellation nor fills the micro-batch. -/
theorem stream_loop_cons_valid (sig : Option Nat) (N bsz : Nat)
    (record : CsvRecord) (row : Nat) (rest : List (CsvRecord × Nat))
    (st : StreamState)
    (hval : validate_csv_record record = (true, none))
    (hcancel : ¬((st.records_seen + 1) % 1000 = 0 ∧
      sigCancelled sig (st.records_seen + 1) = true))
    (hsize : ¬(bsz ≤ st.micro_batch.length + 1)) :
    stream_loop sig N bsz ((record, row) :: rest) st =
      stream_loop sig N bsz rest
        { st with
            records_seen := st.records_seen + 1
            micro_batch := st.micro_batch ++ [rowOf record row] } := by
  conv_lhs => rw [stream_loop]
  rw [if_neg hcancel]
  simp only [hval]
  rw [if_neg]
  simp only [List.length_append, List.length_cons, List.length_nil,
    Nat.zero_add]
  exact hsize

/-! ## C1: case-folding collision resolution -/

/-- C1 counterexample: on the spec's own 3-row end-to-end file the single
stored entry keeps the FIRST occurrence's name `"Widget"`, not the claimed
last-wins `"Widget Pro"` — in-batch duplicate case-folded keys on the
create path are dropped by the `skus_in_create_batch` guard. -/
theorem last_wins_fails_on_file3 :
    (process_csv_import_task file3 [] none newImportJob).store =
      [⟨1, "A1", "Widget", "x", true⟩] ∧
    ("Widget" : String) ≠ "Widget Pro" := by
  constructor
  · rfl
  · decide

/-- C1 amended: two valid rows whose keys are equal after case-folding and
hit an empty store inside one micro-batch yield exactly one stored entry,
and the EARLIER row wins: the entry carries the first row's name and
description (the later duplicate is dropped by the in-batch create guard). -/
theorem case_fold_first_wins (r1 r2 : CsvRecord) (n1 n2 : Nat)
    (h1 : validate_csv_record r1 = (true, none))
    (h2 : validate_csv_record r2 = (true, none))
    (hk : pyLower (skuOf r1) = pyLower (skuOf r2)) :
    (process_csv_stream none [(r1, n1), (r2, n2)] [] [] 2 500).store =
      [⟨1, skuOf r1, nameOf r1, descOf r1, true⟩] := by
  simp only [skuOf, nameOf, descOf] at hk ⊢
  unfold process_csv_stream
  rw [stream_loop_cons_valid none 2 500 r1 n1 _ _ h1
    (by simp [sigCancelled]) (by simp)]
  rw [stream_loop_cons_valid none 2 500 r2 n2 _ _ h2
    (by simp [sigCancelled]) (by simp)]
  rw [stream_loop_nil]
  show (process_micro_batch
    [⟨pyStrip ((recGet r1 "Sku").getD ""),
      pyStrip ((recGet r1 "Name").getD ""),
      pyStrip ((recGet r1 "Description").getD ""), true, n1⟩,
     ⟨pyStrip ((recGet r2 "Sku").getD ""),
      pyStrip ((recGet r2 "Name").getD ""),
      pyStrip ((recGet r2 "Description").getD ""), true, n2⟩]
    [] []).2.2.2 = _
  unfold process_micro_batch
  rw [List.foldl_cons, List.foldl_cons, List.foldl_nil]
  rw [show partition_step ⟨[], [], [], []⟩
      ⟨pyStrip ((recGet r1 "Sku").getD ""),
        pyStrip ((recGet r1 "Name").getD ""),
        pyStrip ((recGet r1 "Description").getD ""), true, n1⟩ =
      ⟨[], [⟨pyStrip ((recGet r1 "Sku").getD ""),
        pyStrip ((recGet r1 "Name").getD ""),
        pyStrip ((recGet r1 "Description").getD ""), true, n1⟩],
       [pyLower (pyStrip ((recGet r1 "Sku").getD ""))],
       [(pyLower (pyStrip ((recGet r1 "Sku").getD "")),
        ⟨none, pyStrip ((recGet r1 "Sku").getD ""),
          pyStrip ((recGet r1 "Name").getD ""),
          pyStrip ((recGet r1 "Description").getD ""), true⟩)]⟩ from rfl]
  rw [show partition_step
      ⟨[], [⟨pyStrip ((recGet r1 "Sku").getD ""),
        pyStrip ((recGet r1 "Name").getD ""),
        pyStrip ((recGet r1 "Description").getD ""), true, n1⟩],
       [pyLower (pyStrip ((recGet r1 "Sku").getD ""))],
       [(pyLower (pyStrip ((recGet r1 "Sku").getD "")),
        ⟨none, pyStrip ((recGet r1 "Sku").getD ""),
          pyStrip ((recGet r1 "Name").getD ""),
          pyStrip ((recGet r1 "Description").getD ""), true⟩)]⟩
      ⟨pyStrip ((recGet r2 "Sku").getD ""),
        pyStrip ((recGet r2 "Name").getD ""),
        pyStrip ((recGet r2 "Description").getD ""), true, n2⟩ =
      ⟨[], [⟨pyStrip ((recGet r1 "Sku").getD ""),
        pyStrip ((recGet r1 "Name").getD ""),
        pyStrip ((recGet r1 "Description").getD ""), true, n1⟩],
       [pyLower (pyStrip ((recGet r1 "Sku").getD ""))],
       [(pyLower (pyStrip ((recGet r1 "Sku").getD "")),
        ⟨none, pyStrip ((recGet r1 "Sku").getD ""),
          pyStrip ((recGet r1 "Name").getD ""),
          pyStrip ((recGet r1 "Description").getD ""), true⟩)]⟩ from ?_]
  · rfl
  · unfold partition_step
    simp only
    rw [← hk]
    rw [dictGet_cons]
    simp only [if_pos rfl]
    rw [if_pos]
    simp [List.contains_cons]
    trivial

/-- Witness for the amended C1 at the spec's two colliding rows. -/
theorem case_fold_first_wins_witness :
    (process_csv_stream none
      [([("Sku", "A1"), ("Name", "Widget"), ("Description", "x")], 2),
       ([("Sku", "a1"), ("Name", "Widget Pro"), ("Description", "y")], 3)]
      [] [] 2 500).store = [⟨1, "A1", "Widget", "x", true⟩] :=
  case_fold_first_wins
    [("Sku", "A1"), ("Name", "Widget"), ("Description", "x")]
    [("Sku", "a1"), ("Name", "Widget Pro"), ("Description", "y")] 2 3
    (by decide) (by decide) (by decide)

/-! ## The uncancelled loop: full consumption and the error log -/

theorem stream_loop_none_chars (N bsz : Nat) (gen : List (CsvRecord × Nat))
    (st : StreamState) :
    (stream_loop none N bsz gen st).all_errors =
      st.all_errors ++ invalidSpec gen ∧
    (stream_loop none N bsz gen st).records_seen =
      st.records_seen + gen.length ∧
    (stream_loop none N bsz gen st).cancelled = st.cancelled := by
  induction gen generalizing st with
  | nil =>
    rw [stream_loop_nil]
    simp [invalidSpec]
  | cons p rest ih =>
    obtain ⟨record, row⟩ := p
    rw [stream_loop]
    rw [if_neg (by simp [sigCancelled])]
    rcases hv : validate_csv_record record with ⟨b, msg⟩
    cases b
    · simp only [hv]
      refine ⟨?_, ?_, ?_⟩
      · rw [(ih _).1]
        simp only [invalidSpec, List.filterMap_cons, hv, skuOf]
        simp [invalidSpec]
      · rw [(ih _).2.1]
        simp only [List.length_cons]
        omega
      · rw [(ih _).2.2]
    · simp only [hv]
      by_cases hs : bsz ≤ (st.micro_batch ++ [rowOf record row]).length
      · rw [if_pos hs]
        rcases hpm : process_micro_batch (st.micro_batch ++ [rowOf record row])
            st.dict st.store with ⟨processed, errors, dict', store'⟩
        have herr : errors = [] := by
          have h0 := process_micro_batch_errors
            (st.micro_batch ++ [rowOf record row]) st.dict st.store
          rw [hpm] at h0
          exact h0
        refine ⟨?_, ?_, ?_⟩
        · rw [(ih _).1]
          simp only [herr, List.append_nil]
          simp only [invalidSpec, List.filterMap_cons, hv]
        · rw [(ih _).2.1]
          simp only [List.length_cons]
          omega
        · rw [(ih _).2.2]
      · rw [if_neg hs]
        refine ⟨?_, ?_, ?_⟩
        · rw [(ih _).1]
          simp only [invalidSpec, List.filterMap_cons, hv]
        · rw [(ih _).2.1]
          simp only [List.length_cons]
          omega
        · rw [(ih _).2.2]

/-- Every committed batch of the loop consists of rows with nonempty
stripped SKU and name, provided the pending batch and past commits do. -/
theorem stream_loop_good_commits (sig : Option Nat) (N bsz : Nat)
    (gen : List (CsvRecord × Nat)) (st : StreamState)
    (ht : ∀ b, StreamEvent.commit b ∈ st.trace →
      ∀ pd ∈ b, pd.sku ≠ "" ∧ pd.name ≠ "")
    (hmb : ∀ pd ∈ st.micro_batch, pd.sku ≠ "" ∧ pd.name ≠ "") :
    (∀ b, StreamEvent.commit b ∈ (stream_loop sig N bsz gen st).trace →
      ∀ pd ∈ b, pd.sku ≠ "" ∧ pd.name ≠ "") ∧
    (∀ pd ∈ (stream_loop sig N bsz gen st).micro_batch,
      pd.sku ≠ "" ∧ pd.name ≠ "") := by
  induction gen generalizing st with
  | nil =>
    rw [stream_loop_nil]
    exact ⟨ht, hmb⟩
  | cons p rest ih =>
    obtain ⟨record, row⟩ := p
    rw [stream_loop]
    by_cases hc : (st.records_seen + 1) % 1000 = 0 ∧
        sigCancelled sig (st.records_seen + 1) = true
    · rw [if_pos hc]
      refine ⟨?_, hmb⟩
      intro b hb
      simp only [List.mem_append, List.mem_singleton] at hb
      rcases hb with hb | hb
      · exact ht b hb
      · exact absurd hb (by simp)
    · rw [if_neg hc]
      rcases hv : validate_csv_record record with ⟨b, msg⟩
      cases b
      · simp only [hv]
        exact ih _ ht hmb
      · simp only [hv]
        have hrow : (rowOf record row).sku ≠ "" ∧
            (rowOf record row).name ≠ "" := by
          have h1 : (validate_csv_record record).1 = true := by rw [hv]
          have h2 := (validate_true_iff record).mp h1
          exact ⟨h2.1, h2.2⟩
        have hmb' : ∀ pd ∈ st.micro_batch ++ [rowOf record row],
            pd.sku ≠ "" ∧ pd.name ≠ "" := by
          intro pd hpd
          simp only [List.mem_append, List.mem_singleton] at hpd
          rcases hpd with hpd | hpd
          · exact hmb pd hpd
          · rw [hpd]; exact hrow
        by_cases hs : bsz ≤ (st.micro_batch ++ [rowOf record row]).length
        · rw [if_pos hs]
          rcases hpm : process_micro_batch
              (st.micro_batch ++ [rowOf record row]) st.dict st.store
            with ⟨processed, errors, dict', store'⟩
          apply ih
          · intro b hb
            simp only [List.mem_append, List.mem_cons,
              List.mem_singleton] at hb
            rcases hb with hb | hb | hb
            · exact ht b hb
            · have : b = st.micro_batch ++ [rowOf record row] := by
                injection hb
              rw [this]
              exact hmb'
            · exact absurd hb (by simp)
          · intro pd hpd
            exact absurd hpd (List.not_mem_nil pd)
        · rw [if_neg hs]
          exact ih _ ht hmb'

/-! ## C6: invalid rows are logged once, with their row number, and
excluded from writes -/

/-- C6: for a file whose headers validate, the streamed row numbers are
`2, 3, …` (header is row 1), the accumulated error log is exactly one entry
per invalid row — carrying that row's number and stripped SKU and the
validation message — in file order, every committed batch contains only
rows with nonempty key and name (invalid rows are excluded from writes),
and the loop consumes every record (processing continues past invalid
rows).  The persisted copy of this log is capped separately (C8). -/
theorem invalid_rows_logged_and_excluded (file : CsvFile)
    (gen : List (CsvRecord × Nat)) (hgen : stream_csv_from_s3 file = .ok gen)
    (d : SkuDict) (s : Store) (N bsz : Nat) :
    gen.map Prod.snd = List.range' 2 file.rows.length ∧
    (process_csv_stream none gen d s N bsz).all_errors = invalidSpec gen ∧
    (∀ b, StreamEvent.commit b ∈ (process_csv_stream none gen d s N bsz).trace →
      ∀ pd ∈ b, pd.sku ≠ "" ∧ pd.name ≠ "") ∧
    (process_csv_stream none gen d s N bsz).records_seen = gen.length := by
  have hshape : gen = (file.rows.enumFrom 2).map
      (fun p => (normalize_csv_record (dictReaderRow file.headers p.2), p.1)) := by
    unfold stream_csv_from_s3 at hgen
    rcases hh : validate_csv_headers file.headers with ⟨b, msg⟩
    cases b
    · rw [hh] at hgen
      simp at hgen
    · rw [hh] at hgen
      simp only [Except.ok.injEq] at hgen
      exact hgen.symm
  refine ⟨?_, ?_⟩
  · rw [hshape, List.map_map]
    have : (Prod.snd ∘ fun p : Nat × List String =>
        (normalize_csv_record (dictReaderRow file.headers p.2), p.1)) =
        Prod.fst := rfl
    rw [this]
    rw [List.enumFrom_map_fst]
  · have hloop := stream_loop_none_chars N bsz gen
      ⟨0, 0, [], [], 0, 0, d, s, [], false⟩
    have hgood := stream_loop_good_commits none N bsz gen
      ⟨0, 0, [], [], 0, 0, d, s, [], false⟩
      (by intro b hb; exact absurd hb (List.not_mem_nil _))
      (by intro pd hpd; exact absurd hpd (List.not_mem_nil pd))
    unfold process_csv_stream
    rcases hst : stream_loop none N bsz gen
      ⟨0, 0, [], [], 0, 0, d, s, [], false⟩ with
      ⟨tp, te, ae, mb, bc, rs, dct, str, tr, cl⟩
    rw [hst] at hloop hgood
    simp only at hloop hgood
    by_cases hmb : mb ≠ []
    · rw [if_pos hmb]
      rcases hpm : process_micro_batch mb dct str with ⟨pr, er, d2, s2⟩
      have herr : er = [] := by
        have h0 := process_micro_batch_errors mb dct str
        rw [hpm] at h0
        exact h0
      refine ⟨?_, ?_, ?_⟩
      · simp only [herr, List.append_nil]
        rw [hloop.1]
        simp
      · intro b hb
        simp only [List.mem_append, List.mem_singleton] at hb
        rcases hb with hb | hb
        · exact hgood.1 b hb
        · have : b = mb := by injection hb
          rw [this]
          exact hgood.2
      · rw [hloop.2.1]
        simp
    · rw [if_neg hmb]
      refine ⟨?_, ?_, ?_⟩
      · rw [hloop.1]
        simp
      · intro b hb
        exact hgood.1 b hb
      · rw [hloop.2.1]
        simp

/-- Witness for C6 on the 3-row end-to-end file. -/
theorem invalid_rows_logged_and_excluded_witness :
    (csvGen file3).map Prod.snd = List.range' 2 file3.rows.length ∧
    (process_csv_stream none (csvGen file3) [] [] 3 500).all_errors =
      invalidSpec (csvGen file3) ∧
    (∀ b, StreamEvent.commit b ∈
        (process_csv_stream none (csvGen file3) [] [] 3 500).trace →
      ∀ pd ∈ b, pd.sku ≠ "" ∧ pd.name ≠ "") ∧
    (process_csv_stream none (csvGen file3) [] [] 3 500).records_seen =
      (csvGen file3).length :=
  invalid_rows_logged_and_excluded file3 (csvGen file3) rfl [] [] 3 500

/-! ## Characterisation of the progress persists of a stream trace -/

theorem progressArgs_progress (tp N : Nat) (errs : List ErrEntry) :
    (progressArgs tp N errs).progress = some (progFormula N tp) := rfl

theorem progFormula_mono (N : Nat) {tp tp' : Nat} (h : tp ≤ tp') :
    progFormula N tp ≤ progFormula N tp' := by
  unfold progFormula
  by_cases hN : 0 < N
  · simp only [if_pos hN]
    have : tp * 80 / N ≤ tp' * 80 / N :=
      Nat.div_le_div_right (Nat.mul_le_mul_right 80 h)
    omega
  · simp only [if_neg hN]
    exact Nat.le_refl _

/-- Every persist attempt of the loop is a `progressArgs` write whose error
slice is `pyTail100` of a prefix of the accumulated error log, and whose
processed count is bounded by the final one; the accumulated log and
processed count only grow. -/
theorem stream_loop_persist_shape (sig : Option Nat) (N bsz : Nat)
    (gen : List (CsvRecord × Nat)) (st : StreamState) :
    (∃ tail, (stream_loop sig N bsz gen st).all_errors =
      st.all_errors ++ tail) ∧
    st.total_processed ≤ (stream_loop sig N bsz gen st).total_processed ∧
    (∀ t a, StreamEvent.persist t a ∈ (stream_loop sig N bsz gen st).trace →
      StreamEvent.persist t a ∈ st.trace ∨
      ∃ tp errs, a = progressArgs tp N errs ∧
        (∃ rest, errs ++ rest = (stream_loop sig N bsz gen st).all_errors) ∧
        tp ≤ (stream_loop sig N bsz gen st).total_processed) := by
  induction gen generalizing st with
  | nil =>
    rw [stream_loop_nil]
    exact ⟨⟨[], by simp⟩, Nat.le_refl _, fun t a ha => Or.inl ha⟩
  | cons p rest ih =>
    obtain ⟨record, row⟩ := p
    rw [stream_loop]
    by_cases hc : (st.records_seen + 1) % 1000 = 0 ∧
        sigCancelled sig (st.records_seen + 1) = true
    · rw [if_pos hc]
      refine ⟨⟨[], by simp⟩, Nat.le_refl _, ?_⟩
      intro t a ha
      simp only [List.mem_append, List.mem_singleton] at ha
      rcases ha with ha | ha
      · exact Or.inl ha
      · exact absurd ha (by simp)
    · rw [if_neg hc]
      rcases hv : validate_csv_record record with ⟨b, msg⟩
      cases b
      · simp only [hv]
        obtain ⟨htail, hproc, hpers⟩ := ih ({ st with
          records_seen := st.records_seen + 1
          total_errors := st.total_errors + 1
          all_errors := st.all_errors ++
            [⟨some row, some (pyStrip ((recGet record "Sku").getD "")),
              msg.getD ""⟩] })
        refine ⟨?_, hproc, hpers⟩
        obtain ⟨tail, htail⟩ := htail
        refine ⟨[⟨some row, some (pyStrip ((recGet record "Sku").getD "")),
          msg.getD ""⟩] ++ tail, ?_⟩
        rw [htail]
        simp
      · simp only [hv]
        by_cases hs : bsz ≤ (st.micro_batch ++ [rowOf record row]).length
        · rw [if_pos hs]
          rcases hpm : process_micro_batch
              (st.micro_batch ++ [rowOf record row]) st.dict st.store
            with ⟨processed, errors, dict', store'⟩
          have herr : errors = [] := by
            have h0 := process_micro_batch_errors
              (st.micro_batch ++ [rowOf record row]) st.dict st.store
            rw [hpm] at h0
            exact h0
          subst herr
          obtain ⟨htail, hproc, hpers⟩ := ih ({
            total_processed := st.total_processed + processed
            total_errors := st.total_errors + List.length []
            all_errors := st.all_errors ++ []
            micro_batch := []
            batch_count := st.batch_count + 1
            records_seen := st.records_seen + 1
            dict := dict'
            store := store'
            trace := st.trace ++
              [.commit (st.micro_batch ++ [rowOf record row]),
               .persist (st.records_seen + 1)
                 (progressArgs (st.total_processed + processed) N
                   (st.all_errors ++ []))]
            cancelled := st.cancelled })
          simp only [List.append_nil] at htail hproc hpers ⊢
          refine ⟨htail, le_trans (Nat.le_add_right _ _) hproc, ?_⟩
          intro t a ha
          rcases hpers t a ha with hin | hnew
          · rcases List.mem_append.mp hin with hin | hin
            · exact Or.inl hin
            · rcases List.mem_cons.mp hin with hin | hin
              · exact absurd hin (by simp)
              · rcases List.mem_cons.mp hin with hin | hin
                · right
                  injection hin with ht' ha'
                  refine ⟨st.total_processed + processed, st.all_errors,
                    ha', ?_, hproc⟩
                  obtain ⟨tail, htl⟩ := htail
                  exact ⟨tail, htl.symm⟩
                · exact absurd hin (List.not_mem_nil _)
          · exact Or.inr hnew
        · rw [if_neg hs]
          obtain ⟨htail, hproc, hpers⟩ := ih ({ st with
            records_seen := st.records_seen + 1
            micro_batch := st.micro_batch ++ [rowOf record row] })
          exact ⟨htail, hproc, hpers⟩

/-- `total_errors` counts exactly the accumulated error entries. -/
theorem stream_loop_error_count (sig : Option Nat) (N bsz : Nat)
    (gen : List (CsvRecord × Nat)) (st : StreamState)
    (h : st.total_errors = st.all_errors.length) :
    (stream_loop sig N bsz gen st).total_errors =
      (stream_loop sig N bsz gen st).all_errors.length := by
  induction gen generalizing st with
  | nil => rw [stream_loop_nil]; exact h
  | cons p rest ih =>
    obtain ⟨record, row⟩ := p
    rw [stream_loop]
    by_cases hc : (st.records_seen + 1) % 1000 = 0 ∧
        sigCancelled sig (st.records_seen + 1) = true
    · rw [if_pos hc]
      exact h
    · rw [if_neg hc]
      rcases hv : validate_csv_record record with ⟨b, msg⟩
      cases b
      · simp only [hv]
        apply ih
        simp only [List.length_append, List.length_cons, List.length_nil]
        omega
      · simp only [hv]
        by_cases hs : bsz ≤ (st.micro_batch ++ [rowOf record row]).length
        · rw [if_pos hs]
          rcases hpm : process_micro_batch
              (st.micro_batch ++ [rowOf record row]) st.dict st.store
            with ⟨processed, errors, dict', store'⟩
          apply ih
          simp only [List.length_append]
          omega
        · rw [if_neg hs]
          exact ih _ h

/-- Persist attempts of a full `process_csv_stream` run, and the exact
error count. -/
theorem process_csv_stream_persist_shape (sig : Option Nat)
    (gen : List (CsvRecord × Nat)) (d : SkuDict) (s : Store) (N bsz : Nat) :
    (∀ t a, StreamEvent.persist t a ∈
        (process_csv_stream sig gen d s N bsz).trace →
      ∃ tp errs, a = progressArgs tp N errs ∧
        (∃ rest, errs ++ rest =
          (process_csv_stream sig gen d s N bsz).all_errors) ∧
        tp ≤ (process_csv_stream sig gen d s N bsz).total_processed) ∧
    (process_csv_stream sig gen d s N bsz).total_errors =
      (process_csv_stream sig gen d s N bsz).all_errors.length := by
  have hloop := stream_loop_persist_shape sig N bsz gen
    ⟨0, 0, [], [], 0, 0, d, s, [], false⟩
  have hcount := stream_loop_error_count sig N bsz gen
    ⟨0, 0, [], [], 0, 0, d, s, [], false⟩ rfl
  unfold process_csv_stream
  rcases hst : stream_loop sig N bsz gen
    ⟨0, 0, [], [], 0, 0, d, s, [], false⟩ with
    ⟨tp, te, ae, mb, bc, rs, dct, str, tr, cl⟩
  rw [hst] at hloop hcount
  simp only at hloop hcount
  obtain ⟨-, -, hpers⟩ := hloop
  by_cases hmb : mb ≠ []
  · rw [if_pos hmb]
    rcases hpm : process_micro_batch mb dct str with ⟨pr, er, d2, s2⟩
    have herr : er = [] := by
      have h0 := process_micro_batch_errors mb dct str
      rw [hpm] at h0
      exact h0
    subst herr
    constructor
    · intro t a ha
      simp only at ha
      rcases List.mem_append.mp ha with ha | ha
      · rcases hpers t a ha with hin | ⟨tp', errs, hae, ⟨restl, hrestl⟩, hle⟩
        · exact absurd hin (List.not_mem_nil _)
        · exact ⟨tp', errs, hae, ⟨restl, by simp [hrestl]⟩,
            le_trans hle (Nat.le_add_right _ _)⟩
      · simp only [List.mem_singleton] at ha
        exact absurd ha (by simp)
    · simp only [List.append_nil, List.length_append]
      simpa using hcount
  · rw [if_neg hmb]
    constructor
    · intro t a ha
      simp only at ha
      rcases hpers t a ha with hin | hnew
      · exact absurd hin (List.not_mem_nil _)
      · exact hnew
    · exact hcount

/-! ## Replaying the stream's persists through the job store -/

/-- One applied progress write: guard passes on a `processing` job, the
write sets status back to `processing`, and the saved row's progress and
error fields are those of the arguments. -/
theorem applyUpdate_progressArgs (t : Nat) (job : ImportJob)
    (tp N : Nat) (errs : List ErrEntry) (hj : job.status = "processing") :
    applyUpdate none t job (progressArgs tp N errs) =
      ({ job with
          status := "processing"
          phase := "processing"
          progress := progFormula N tp
          processed_records := tp
          errors := pyTail100 errs },
       some ⟨["phase", "status", "progress", "processed_records", "errors",
          "last_updated_at"],
         { job with
            status := "processing"
            phase := "processing"
            progress := progFormula N tp
            processed_records := tp
            errors := pyTail100 errs }⟩) := by
  unfold applyUpdate readJob
  simp only [sigCancelled, Bool.false_eq_true, if_false]
  have hcore : update_job_core job (progressArgs tp N errs) =
      ({ job with
          status := "processing"
          phase := "processing"
          progress := progFormula N tp
          processed_records := tp
          errors := pyTail100 errs },
       { job with
          status := "processing"
          phase := "processing"
          progress := progFormula N tp
          processed_records := tp
          errors := pyTail100 errs },
       some ⟨["phase", "status", "progress", "processed_records", "errors",
          "last_updated_at"],
         { job with
            status := "processing"
            phase := "processing"
            progress := progFormula N tp
            processed_records := tp
            errors := pyTail100 errs }⟩) := by
    unfold update_job_core
    rw [if_neg (by rw [hj]; decide)]
    rfl
  rw [hcore]

/-- Replaying a trace whose persists are progress writes over a
`processing` job (no cancel signal): every persist is applied, the job
stays in `processing`, and the persisted rows carry exactly the attempted
progress values and error slices. -/
theorem replayPersists_ops (N : Nat) (job : ImportJob)
    (tr : List StreamEvent) (hj : job.status = "processing")
    (hshape : ∀ t a, StreamEvent.persist t a ∈ tr →
      ∃ tp errs, a = progressArgs tp N errs) :
    (replayPersists none job tr).1.status = "processing" ∧
    progressSeq (replayPersists none job tr).2 = persistProgs tr ∧
    (∀ w ∈ (replayPersists none job tr).2,
      w.fields = ["phase", "status", "progress", "processed_records",
        "errors", "last_updated_at"] ∧
      ∃ tp errs, (∃ t, StreamEvent.persist t (progressArgs tp N errs) ∈ tr) ∧
        w.job.errors = pyTail100 errs ∧
        w.job.progress = progFormula N tp ∧
        w.job.status = "processing") := by
  induction tr generalizing job with
  | nil =>
    simp only [replayPersists]
    refine ⟨hj, rfl, ?_⟩
    intro w hw
    exact absurd hw (List.not_mem_nil w)
  | cons e rest ih =>
    rcases e with b | t0 | ⟨t0, a0⟩
    · simp only [replayPersists]
      obtain ⟨h1, h2, h3⟩ := ih job hj
        (fun t a ha => hshape t a (List.mem_cons.mpr (Or.inr ha)))
      refine ⟨h1, ?_, ?_⟩
      · rw [h2]
        rfl
      · intro w hw
        obtain ⟨hf, tp, errs, ⟨t, hmem⟩, hrest⟩ := h3 w hw
        exact ⟨hf, tp, errs, ⟨t, List.mem_cons.mpr (Or.inr hmem)⟩, hrest⟩
    · simp only [replayPersists]
      obtain ⟨h1, h2, h3⟩ := ih job hj
        (fun t a ha => hshape t a (List.mem_cons.mpr (Or.inr ha)))
      refine ⟨h1, ?_, ?_⟩
      · rw [h2]
        rfl
      · intro w hw
        obtain ⟨hf, tp, errs, ⟨t, hmem⟩, hrest⟩ := h3 w hw
        exact ⟨hf, tp, errs, ⟨t, List.mem_cons.mpr (Or.inr hmem)⟩, hrest⟩
    · obtain ⟨tp, errs, ha0⟩ := hshape t0 a0 (List.mem_cons.mpr (Or.inl rfl))
      subst ha0
      simp only [replayPersists]
      rw [applyUpdate_progressArgs t0 job tp N errs hj]
      obtain ⟨h1, h2, h3⟩ := ih
        { job with
            status := "processing"
            phase := "processing"
            progress := progFormula N tp
            processed_records := tp
            errors := pyTail100 errs } rfl
        (fun t a ha => hshape t a (List.mem_cons.mpr (Or.inr ha)))
      refine ⟨h1, ?_, ?_⟩
      · simp only [Option.toList_some, List.singleton_append]
        simp only [progressSeq, List.filterMap_cons]
        have hfld : (["phase", "status", "progress", "processed_records",
            "errors", "last_updated_at"] : List String).contains "progress" =
            true := by decide
        simp only [hfld, if_true]
        have hps : persistProgs
            (StreamEvent.persist t0 (progressArgs tp N errs) :: rest) =
            progFormula N tp :: persistProgs rest := by
          simp only [persistProgs, List.filterMap_cons, progressArgs_progress]
        rw [hps]
        congr 1
      · intro w hw
        simp only [Option.toList_some, List.singleton_append,
          List.mem_cons] at hw
        rcases hw with hw | hw
        · subst hw
          refine ⟨rfl, tp, errs, ⟨t0, List.mem_cons.mpr (Or.inl rfl)⟩,
            rfl, rfl, rfl⟩
        · obtain ⟨hf, tp', errs', ⟨t, hmem⟩, hrest⟩ := h3 w hw
          exact ⟨hf, tp', errs', ⟨t, List.mem_cons.mpr (Or.inr hmem)⟩, hrest⟩

/-- The completion write applied to a `processing` job. -/
theorem applyUpdate_completedArgs (t : Nat) (job : ImportJob)
    (tp n : Nat) (errs : List ErrEntry) (hj : job.status = "processing") :
    applyUpdate none t job (completedArgs tp n errs) =
      ({ job with
          status := "completed"
          phase := "completed"
          progress := 100
          processed_records := tp
          total_records := n
          errors := pyTail100 errs
          completed_at_set := true },
       some ⟨["status", "phase", "progress", "processed_records",
          "total_records", "errors", "completed_at", "last_updated_at"],
         { job with
            status := "completed"
            phase := "completed"
            progress := 100
            processed_records := tp
            total_records := n
            errors := pyTail100 errs
            completed_at_set := true }⟩) := by
  unfold applyUpdate readJob
  simp only [sigCancelled, Bool.false_eq_true, if_false]
  have hcore : update_job_core job (completedArgs tp n errs) =
      ({ job with
          status := "completed"
          phase := "completed"
          progress := 100
          processed_records := tp
          total_records := n
          errors := pyTail100 errs
          completed_at_set := true },
       { job with
          status := "completed"
          phase := "completed"
          progress := 100
          processed_records := tp
          total_records := n
          errors := pyTail100 errs
          completed_at_set := true },
       some ⟨["status", "phase", "progress", "processed_records",
          "total_records", "errors", "completed_at", "last_updated_at"],
         { job with
            status := "completed"
            phase := "completed"
            progress := 100
            processed_records := tp
            total_records := n
            errors := pyTail100 errs
            completed_at_set := true }⟩) := by
    unfold update_job_core
    rw [if_neg (by rw [hj]; decide)]
    rfl
  rw [hcore]

/-- The shape of a completed (header-valid, uncancelled) task run: the
start write, the `total_records` write, the applied stream progress writes,
and the completion write, with the stream's outcome as the job's final
state. -/
theorem task_none_shape (file : CsvFile) (store : Store)
    (hh : validate_csv_headers file.headers = (true, none)) :
    process_csv_import_task file store none newImportJob =
      ⟨⟨["status", "phase", "progress", "processed_records",
          "celery_task_id", "last_updated_at"],
        ⟨"processing", "parsing", 15, 0, 0, [], some "task-id", none, 0,
          false⟩⟩ ::
       ⟨["total_records", "last_updated_at"],
        ⟨"processing", "parsing", 15, file.rows.length, 0, [],
          some "task-id", none, 0, false⟩⟩ ::
       ((replayPersists none
          ⟨"processing", "parsing", 15, file.rows.length, 0, [],
            some "task-id", none, 0, false⟩
          (process_csv_stream none (csvGen file)
            (preload_existing_skus store) store file.rows.length 500).trace).2
        ++ [⟨["status", "phase", "progress", "processed_records",
              "total_records", "errors", "completed_at", "last_updated_at"],
            { (replayPersists none
                ⟨"processing", "parsing", 15, file.rows.length, 0, [],
                  some "task-id", none, 0, false⟩
                (process_csv_stream none (csvGen file)
                  (preload_existing_skus store) store
                  file.rows.length 500).trace).1 with
               status := "completed"
               phase := "completed"
               progress := 100
               processed_records := (process_csv_stream none (csvGen file)
                 (preload_existing_skus store) store
                 file.rows.length 500).total_processed
               total_records := file.rows.length
               errors := pyTail100 (process_csv_stream none (csvGen file)
                 (preload_existing_skus store) store
                 file.rows.length 500).all_errors
               completed_at_set := true }⟩]),
       { (replayPersists none
           ⟨"processing", "parsing", 15, file.rows.length, 0, [],
             some "task-id", none, 0, false⟩
           (process_csv_stream none (csvGen file)
             (preload_existing_skus store) store
             file.rows.length 500).trace).1 with
          status := "completed"
          phase := "completed"
          progress := 100
          processed_records := (process_csv_stream none (csvGen file)
            (preload_existing_skus store) store
            file.rows.length 500).total_processed
          total_records := file.rows.length
          errors := pyTail100 (process_csv_stream none (csvGen file)
            (preload_existing_skus store) store
            file.rows.length 500).all_errors
          completed_at_set := true },
       (process_csv_stream none (csvGen file) (preload_existing_skus store)
         store file.rows.length 500).store,
       some (process_csv_stream none (csvGen file)
         (preload_existing_skus store) store file.rows.length 500),
       false⟩ := by
  have hcount : count_csv_records file = .ok file.rows.length := by
    unfold count_csv_records
    rw [hh]
  have hstream : stream_csv_from_s3 file = .ok (csvGen file) := by
    unfold stream_csv_from_s3 csvGen
    rw [hh]
  have hshape := (process_csv_stream_persist_shape none (csvGen file)
    (preload_existing_skus store) store file.rows.length 500).1
  have hreplay := replayPersists_ops file.rows.length
    ⟨"processing", "parsing", 15, file.rows.length, 0, [], some "task-id",
      none, 0, false⟩
    (process_csv_stream none (csvGen file) (preload_existing_skus store)
      store file.rows.length 500).trace rfl
    (fun t a ha => (hshape t a ha).imp
      (fun tp h => h.imp (fun errs h2 => h2.1)))
  unfold process_csv_import_task
  rw [show applyUpdate none 0 newImportJob startArgs =
    (⟨"processing", "parsing", 15, 0, 0, [], some "task-id", none, 0,
      false⟩,
     some ⟨["status", "phase", "progress", "processed_records",
        "celery_task_id", "last_updated_at"],
      ⟨"processing", "parsing", 15, 0, 0, [], some "task-id", none, 0,
        false⟩⟩) from rfl]
  simp only [readJob, sigCancelled, Bool.false_eq_true, if_false]
  rw [if_neg (by decide :
    ¬ (⟨"processing", "parsing", 15, 0, 0, [], some "task-id", none, 0,
      false⟩ : ImportJob).status = "cancelled")]
  rw [if_neg (by decide :
    ¬ (⟨"processing", "parsing", 15, 0, 0, [], some "task-id", none, 0,
      false⟩ : ImportJob).status = "cancelled")]
  simp only [hcount]
  rw [show applyUpdate none 0
      ⟨"processing", "parsing", 15, 0, 0, [], some "task-id", none, 0,
        false⟩ (totalArgs file.rows.length) =
    (⟨"processing", "parsing", 15, file.rows.length, 0, [], some "task-id",
       none, 0, false⟩,
     some ⟨["total_records", "last_updated_at"],
       ⟨"processing", "parsing", 15, file.rows.length, 0, [],
         some "task-id", none, 0, false⟩⟩) from rfl]
  simp only [readJob, sigCancelled, Bool.false_eq_true, if_false]
  rw [if_neg (by simp :
    ¬ (⟨"processing", "parsing", 15, file.rows.length, 0, [],
      some "task-id", none, 0, false⟩ : ImportJob).status = "cancelled")]
  simp only [hstream]
  rcases hrp : replayPersists none
      ⟨"processing", "parsing", 15, file.rows.length, 0, [], some "task-id",
        none, 0, false⟩
      (process_csv_stream none (csvGen file) (preload_existing_skus store)
        store file.rows.length 500).trace with ⟨jobF, streamOps⟩
  rw [hrp] at hreplay
  simp only at hreplay
  obtain ⟨hFstatus, -, -⟩ := hreplay
  simp only [readJob, sigCancelled, Bool.false_eq_true, if_false]
  rw [if_neg (by rw [hFstatus]; decide)]
  rw [applyUpdate_completedArgs _ jobF _ _ _ hFstatus]
  rfl

/-! ## Per-write shapes under an arbitrary cancellation signal -/

/-- A progress write applied under any signal: either suppressed by the
cancelled-guard, or persisting exactly the argument's fields. -/
theorem applyUpdate_progressArgs_cases (sig : Option Nat) (t : Nat)
    (job : ImportJob) (tp N : Nat) (errs : List ErrEntry) :
    (applyUpdate sig t job (progressArgs tp N errs)).2 = none ∨
    ∃ j : ImportJob, (applyUpdate sig t job (progressArgs tp N errs)).2 =
      some ⟨["phase", "status", "progress", "processed_records", "errors",
        "last_updated_at"], j⟩ ∧
      j.progress = progFormula N tp ∧ j.status = "processing" ∧
      j.errors = pyTail100 errs := by
  unfold applyUpdate
  by_cases hj : (readJob sig t job).status = "cancelled"
  · left
    have hcore : update_job_core (readJob sig t job)
        (progressArgs tp N errs) = (readJob sig t job, readJob sig t job,
          none) := by
      unfold update_job_core
      rw [if_pos hj]
    simp only [hcore]
  · right
    have hcore : update_job_core (readJob sig t job)
        (progressArgs tp N errs) =
        ({ readJob sig t job with
            status := "processing"
            phase := "processing"
            progress := progFormula N tp
            processed_records := tp
            errors := pyTail100 errs },
         { readJob sig t job with
            status := "processing"
            phase := "processing"
            progress := progFormula N tp
            processed_records := tp
            errors := pyTail100 errs },
         some ⟨["phase", "status", "progress", "processed_records",
            "errors", "last_updated_at"],
           { readJob sig t job with
              status := "processing"
              phase := "processing"
              progress := progFormula N tp
              processed_records := tp
              errors := pyTail100 errs }⟩) := by
      unfold update_job_core
      rw [if_neg hj]
      rfl
    simp only [hcore]
    exact ⟨_, rfl, rfl, rfl, rfl⟩

/-- Every persisted save an arbitrary-signal replay produces is a progress
write: its fields are the stream's literal field list and its progress is
the capped formula value. -/
theorem replayPersists_ops_cases (sig : Option Nat) (N : Nat)
    (job : ImportJob) (tr : List StreamEvent)
    (hshape : ∀ t a, StreamEvent.persist t a ∈ tr →
      ∃ tp errs, a = progressArgs tp N errs) :
    ∀ w ∈ (replayPersists sig job tr).2,
      w.fields = ["phase", "status", "progress", "processed_records",
        "errors", "last_updated_at"] ∧
      (∃ tp, w.job.progress = progFormula N tp) ∧
      w.job.status = "processing" := by
  induction tr generalizing job with
  | nil =>
    intro w hw
    exact absurd hw (List.not_mem_nil w)
  | cons e rest ih =>
    rcases e with b | t0 | ⟨t0, a0⟩
    · simp only [replayPersists]
      exact ih _ (fun t a ha => hshape t a (List.mem_cons.mpr (Or.inr ha)))
    · simp only [replayPersists]
      exact ih _ (fun t a ha => hshape t a (List.mem_cons.mpr (Or.inr ha)))
    · obtain ⟨tp, errs, ha0⟩ := hshape t0 a0 (List.mem_cons.mpr (Or.inl rfl))
      subst ha0
      simp only [replayPersists]
      intro w hw
      rcases applyUpdate_progressArgs_cases sig t0 job tp N errs with
        hop | ⟨j, hop, hj⟩
      · rw [hop] at hw
        simp only [Option.toList_none, List.nil_append] at hw
        exact ih _ (fun t a ha => hshape t a (List.mem_cons.mpr (Or.inr ha)))
          w hw
      · rw [hop] at hw
        simp only [Option.toList_some, List.singleton_append,
          List.mem_cons] at hw
        rcases hw with hw | hw
        · subst hw
          exact ⟨rfl, ⟨tp, hj.1⟩, hj.2.1⟩
        · exact ih _
            (fun t a ha => hshape t a (List.mem_cons.mpr (Or.inr ha))) w hw

/-- The start write under any signal. -/
theorem applyUpdate_startArgs_cases (sig : Option Nat) (t : Nat)
    (job : ImportJob) :
    (applyUpdate sig t job startArgs).2 = none ∨
    ∃ j : ImportJob, (applyUpdate sig t job startArgs).2 =
      some ⟨["status", "phase", "progress", "processed_records",
        "celery_task_id", "last_updated_at"], j⟩ ∧
      j.progress = 15 := by
  unfold applyUpdate
  by_cases hj : (readJob sig t job).status = "cancelled"
  · left
    have hcore : update_job_core (readJob sig t job) startArgs =
        (readJob sig t job, readJob sig t job, none) := by
      unfold update_job_core
      rw [if_pos hj]
    simp only [hcore]
  · right
    have hcore : update_job_core (readJob sig t job) startArgs =
        ({ readJob sig t job with
            status := "processing"
            phase := "parsing"
            progress := 15
            processed_records := 0
            celery_task_id := some "task-id" },
         { readJob sig t job with
            status := "processing"
            phase := "parsing"
            progress := 15
            processed_records := 0
            celery_task_id := some "task-id" },
         some ⟨["status", "phase", "progress", "processed_records",
            "celery_task_id", "last_updated_at"],
           { readJob sig t job with
              status := "processing"
              phase := "parsing"
              progress := 15
              processed_records := 0
              celery_task_id := some "task-id" }⟩) := by
      unfold update_job_core
      rw [if_neg hj]
      rfl
    simp only [hcore]
    exact ⟨_, rfl, rfl⟩

/-- The `total_records` write under any signal. -/
theorem applyUpdate_totalArgs_cases (sig : Option Nat) (t : Nat)
    (job : ImportJob) (n : Nat) :
    (applyUpdate sig t job (totalArgs n)).2 = none ∨
    ∃ j : ImportJob, (applyUpdate sig t job (totalArgs n)).2 =
      some ⟨["total_records", "last_updated_at"], j⟩ ∧
      j.total_records = n := by
  unfold applyUpdate
  by_cases hj : (readJob sig t job).status = "cancelled"
  · left
    have hcore : update_job_core (readJob sig t job) (totalArgs n) =
        (readJob sig t job, readJob sig t job, none) := by
      unfold update_job_core
      rw [if_pos hj]
    simp only [hcore]
  · right
    have hcore : update_job_core (readJob sig t job) (totalArgs n) =
        ({ readJob sig t job with total_records := n },
         { readJob sig t job with total_records := n },
         some ⟨["total_records", "last_updated_at"],
           { readJob sig t job with total_records := n }⟩) := by
      unfold update_job_core
      rw [if_neg hj]
      rfl
    simp only [hcore]
    exact ⟨_, rfl, rfl⟩

/-- The failure write under any signal. -/
theorem applyUpdate_failArgs_cases (sig : Option Nat) (t : Nat)
    (job : ImportJob) (msg : String) :
    (applyUpdate sig t job (failArgs msg)).2 = none ∨
    ∃ j : ImportJob, (applyUpdate sig t job (failArgs msg)).2 =
      some ⟨["status", "progress", "errors", "completed_at",
        "last_updated_at"], j⟩ ∧
      j.progress = 0 ∧ j.status = "failed" ∧
      j.errors = [⟨none, none, msg⟩] := by
  unfold applyUpdate
  by_cases hj : (readJob sig t job).status = "cancelled"
  · left
    have hcore : update_job_core (readJob sig t job) (failArgs msg) =
        (readJob sig t job, readJob sig t job, none) := by
      unfold update_job_core
      rw [if_pos hj]
    simp only [hcore]
  · right
    have hcore : update_job_core (readJob sig t job) (failArgs msg) =
        ({ readJob sig t job with
            status := "failed"
            progress := 0
            errors := [⟨none, none, msg⟩]
            completed_at_set := true },
         { readJob sig t job with
            status := "failed"
            progress := 0
            errors := [⟨none, none, msg⟩]
            completed_at_set := true },
         some ⟨["status", "progress", "errors", "completed_at",
            "last_updated_at"],
           { readJob sig t job with
              status := "failed"
              progress := 0
              errors := [⟨none, none, msg⟩]
              completed_at_set := true }⟩) := by
      unfold update_job_core
      rw [if_neg hj]
      rfl
    simp only [hcore]
    exact ⟨_, rfl, rfl, rfl, rfl⟩

/-- The completion write under any signal. -/
theorem applyUpdate_completedArgs_cases (sig : Option Nat) (t : Nat)
    (job : ImportJob) (tp n : Nat) (errs : List ErrEntry) :
    (applyUpdate sig t job (completedArgs tp n errs)).2 = none ∨
    ∃ j : ImportJob, (applyUpdate sig t job (completedArgs tp n errs)).2 =
      some ⟨["status", "phase", "progress", "processed_records",
        "total_records", "errors", "completed_at", "last_updated_at"], j⟩ ∧
      j.progress = 100 ∧ j.status = "completed" ∧ j.total_records = n ∧
      j.errors = pyTail100 errs := by
  unfold applyUpdate
  by_cases hj : (readJob sig t job).status = "cancelled"
  · left
    have hcore : update_job_core (readJob sig t job)
        (completedArgs tp n errs) =
        (readJob sig t job, readJob sig t job, none) := by
      unfold update_job_core
      rw [if_pos hj]
    simp only [hcore]
  · right
    have hcore : update_job_core (readJob sig t job)
        (completedArgs tp n errs) =
        ({ readJob sig t job with
            status := "completed"
            phase := "completed"
            progress := 100
            processed_records := tp
            total_records := n
            errors := pyTail100 errs
            completed_at_set := true },
         { readJob sig t job with
            status := "completed"
            phase := "completed"
            progress := 100
            processed_records := tp
            total_records := n
            errors := pyTail100 errs
            completed_at_set := true },
         some ⟨["status", "phase", "progress", "processed_records",
            "total_records", "errors", "completed_at", "last_updated_at"],
           { readJob sig t job with
              status := "completed"
              phase := "completed"
              progress := 100
              processed_records := tp
              total_records := n
              errors := pyTail100 errs
              completed_at_set := true }⟩) := by
      unfold update_job_core
      rw [if_neg hj]
      rfl
    simp only [hcore]
    exact ⟨_, rfl, rfl, rfl, rfl, rfl⟩

/-- Inventory of progress-persisting writes of any task run, under any
cancellation signal: every persisted progress is at most 99 unless it is
the completion write's 100 with `status=completed` in the same save. -/
theorem task_writes_progress_inventory (file : CsvFile) (store : Store)
    (sig : Option Nat) :
    ∀ w ∈ (process_csv_import_task file store sig newImportJob).writes,
      w.fields.contains "progress" = true →
      w.job.progress ≤ 99 ∨
      (w.job.progress = 100 ∧ w.job.status = "completed" ∧
        w.fields.contains "status" = true) := by
  unfold process_csv_import_task
  rcases h1 : applyUpdate sig 0 newImportJob startArgs with ⟨job1, op1⟩
  simp only [h1]
  have hop1 : ∀ w ∈ op1.toList, w.fields.contains "progress" = true →
      w.job.progress ≤ 99 ∨ (w.job.progress = 100 ∧
        w.job.status = "completed" ∧ w.fields.contains "status" = true) := by
    rcases applyUpdate_startArgs_cases sig 0 newImportJob with hn | ⟨j, hs, hpj⟩
    · rw [h1] at hn
      simp only at hn
      rw [hn]
      intro w hw
      exact absurd hw (List.not_mem_nil w)
    · rw [h1] at hs
      simp only at hs
      rw [hs]
      intro w hw _
      simp only [Option.toList_some, List.mem_singleton] at hw
      subst hw
      left
      simp only [hpj]
      omega
  by_cases hc1 : (readJob sig 0 job1).status = "cancelled"
  · rw [if_pos hc1]
    exact hop1
  · rw [if_neg hc1, if_neg hc1]
    rcases hcnt : count_csv_records file with msg | N
    · simp only [hcnt]
      rcases h2 : applyUpdate sig 0 job1 (failArgs msg) with ⟨job2, opF⟩
      simp only [h2]
      intro w hw hp
      rcases List.mem_append.mp hw with hw | hw
      · exact hop1 w hw hp
      · rcases applyUpdate_failArgs_cases sig 0 job1 msg with hn | ⟨j, hs, hpj⟩
        · rw [h2] at hn
          simp only at hn
          rw [hn] at hw
          exact absurd hw (List.not_mem_nil w)
        · rw [h2] at hs
          simp only at hs
          rw [hs] at hw
          simp only [Option.toList_some, List.mem_singleton] at hw
          subst hw
          left
          simp only [hpj.1]
          omega
    · simp only [hcnt]
      rcases h3 : applyUpdate sig 0 job1 (totalArgs N) with ⟨job3, op2⟩
      simp only [h3]
      have hop2 : ∀ w ∈ op2.toList, w.fields.contains "progress" = true →
          w.job.progress ≤ 99 ∨ (w.job.progress = 100 ∧
            w.job.status = "completed" ∧
            w.fields.contains "status" = true) := by
        rcases applyUpdate_totalArgs_cases sig 0 job1 N with hn | ⟨j, hs, hpj⟩
        · rw [h3] at hn
          simp only at hn
          rw [hn]
          intro w hw
          exact absurd hw (List.not_mem_nil w)
        · rw [h3] at hs
          simp only at hs
          rw [hs]
          intro w hw hp
          simp only [Option.toList_some, List.mem_singleton] at hw
          subst hw
          simp at hp
      by_cases hc3 : (readJob sig 0 job3).status = "cancelled"
      · rw [if_pos hc3]
        intro w hw hp
        rcases List.mem_append.mp hw with hw | hw
        · exact hop1 w hw hp
        · exact hop2 w hw hp
      · rw [if_neg hc3]
        rcases hstr : stream_csv_from_s3 file with msg | gen
        · simp only [hstr]
          rcases h2 : applyUpdate sig 0 job3 (failArgs msg) with ⟨job2, opF⟩
          simp only [h2]
          intro w hw hp
          rcases List.mem_append.mp hw with hw | hw
          · rcases List.mem_append.mp hw with hw | hw
            · exact hop1 w hw hp
            · exact hop2 w hw hp
          · rcases applyUpdate_failArgs_cases sig 0 job3 msg with
              hn | ⟨j, hs, hpj⟩
            · rw [h2] at hn
              simp only at hn
              rw [hn] at hw
              exact absurd hw (List.not_mem_nil w)
            · rw [h2] at hs
              simp only at hs
              rw [hs] at hw
              simp only [Option.toList_some, List.mem_singleton] at hw
              subst hw
              left
              simp only [hpj.1]
              omega
        · simp only [hstr]
          rcases h4 : replayPersists sig job3
              (process_csv_stream sig gen (preload_existing_skus store)
                store N 500).trace with ⟨jobF, sOps⟩
          simp only [h4]
          have hops : ∀ w ∈ sOps, w.fields.contains "progress" = true →
              w.job.progress ≤ 99 ∨ (w.job.progress = 100 ∧
                w.job.status = "completed" ∧
                w.fields.contains "status" = true) := by
            have hsh := (process_csv_stream_persist_shape sig gen
              (preload_existing_skus store) store N 500).1
            have hcases := replayPersists_ops_cases sig N job3
              (process_csv_stream sig gen (preload_existing_skus store)
                store N 500).trace
              (fun t a ha => (hsh t a ha).imp
                (fun tp h => h.imp (fun errs h2 => h2.1)))
            rw [h4] at hcases
            simp only at hcases
            intro w hw _
            obtain ⟨-, ⟨tp, hpj⟩, -⟩ := hcases w hw
            left
            rw [hpj]
            exact Nat.min_le_right _ 99
          by_cases hc4 : (readJob sig
              (process_csv_stream sig gen (preload_existing_skus store)
                store N 500).records_seen jobF).status = "cancelled"
          · rw [if_pos hc4]
            intro w hw hp
            rcases List.mem_append.mp hw with hw | hw
            · rcases List.mem_append.mp hw with hw | hw
              · exact hop1 w hw hp
              · exact hop2 w hw hp
            · exact hops w hw hp
          · rw [if_neg hc4]
            rcases h5 : applyUpdate sig
                (process_csv_stream sig gen (preload_existing_skus store)
                  store N 500).records_seen jobF
                (completedArgs (process_csv_stream sig gen
                  (preload_existing_skus store) store N 500).total_processed
                  N (process_csv_stream sig gen (preload_existing_skus store)
                  store N 500).all_errors) with ⟨jobC, opC⟩
            simp only [h5]
            intro w hw hp
            rcases List.mem_append.mp hw with hw | hw
            · rcases List.mem_append.mp hw with hw | hw
              · rcases List.mem_append.mp hw with hw | hw
                · exact hop1 w hw hp
                · exact hop2 w hw hp
              · exact hops w hw hp
            · rcases applyUpdate_completedArgs_cases sig
                  (process_csv_stream sig gen (preload_existing_skus store)
                    store N 500).records_seen jobF
                  (process_csv_stream sig gen (preload_existing_skus store)
                    store N 500).total_processed N
                  (process_csv_stream sig gen (preload_existing_skus store)
                    store N 500).all_errors with hn | ⟨j, hs, hpj⟩
              · rw [h5] at hn
                simp only at hn
                rw [hn] at hw
                exact absurd hw (List.not_mem_nil w)
              · rw [h5] at hs
                simp only at hs
                rw [hs] at hw
                simp only [Option.toList_some, List.mem_singleton] at hw
                subst hw
                right
                exact ⟨hpj.1, hpj.2.1, rfl⟩

/-! ## Monotonicity of attempted progress values -/

theorem progFormula_le_99 (N tp : Nat) : progFormula N tp ≤ 99 :=
  Nat.min_le_right _ 99

theorem progFormula_ge_15 (N tp : Nat) : 15 ≤ progFormula N tp := by
  unfold progFormula
  rw [Nat.le_min]
  constructor
  · by_cases hN : 0 < N
    · simp only [if_pos hN]
      exact le_trans (by omega) (Nat.le_add_left 20 _)
    · simp only [if_neg hN]
      omega
  · omega

theorem persistProgs_append (t1 t2 : List StreamEvent) :
    persistProgs (t1 ++ t2) = persistProgs t1 ++ persistProgs t2 := by
  unfold persistProgs
  rw [List.filterMap_append]

theorem persistProgs_mem (tr : List StreamEvent) (v : Nat)
    (hv : v ∈ persistProgs tr) :
    ∃ t a, StreamEvent.persist t a ∈ tr ∧ a.progress = some v := by
  unfold persistProgs at hv
  obtain ⟨e, he, hfe⟩ := List.mem_filterMap.mp hv
  rcases e with b | t0 | ⟨t0, a0⟩
  · simp at hfe
  · simp at hfe
  · exact ⟨t0, a0, he, hfe⟩

theorem progressSeq_append (l1 l2 : List SaveOp) :
    progressSeq (l1 ++ l2) = progressSeq l1 ++ progressSeq l2 := by
  unfold progressSeq
  rw [List.filterMap_append]

theorem progressSeq_some (fields : List String) (j : ImportJob)
    (hc : fields.contains "progress" = true) :
    progressSeq [⟨fields, j⟩] = [j.progress] := by
  unfold progressSeq
  rw [List.filterMap_cons]
  simp only [hc]
  rfl

theorem progressSeq_no_field (fields : List String) (j : ImportJob)
    (hc : fields.contains "progress" = false) :
    progressSeq [⟨fields, j⟩] = [] := by
  unfold progressSeq
  rw [List.filterMap_cons]
  simp only [hc]
  rfl

/-- The stored progress values an arbitrary-signal replay writes are, in
order, a sublist of the trace's attempted progress values (the guard can
only skip writes, never reorder or rewrite them). -/
theorem replayPersists_progressSeq (sig : Option Nat) (N : Nat)
    (tr : List StreamEvent) :
    ∀ job : ImportJob,
    (∀ t a, StreamEvent.persist t a ∈ tr →
      ∃ tp errs, a = progressArgs tp N errs) →
    List.Sublist (progressSeq (replayPersists sig job tr).2)
      (persistProgs tr) := by
  induction tr with
  | nil =>
    intro job _
    exact List.nil_sublist _
  | cons e rest ih =>
    intro job hshape
    rcases e with b | t0 | ⟨t0, a0⟩
    · simp only [replayPersists]
      have hpp : persistProgs (StreamEvent.commit b :: rest) =
          persistProgs rest := rfl
      rw [hpp]
      exact ih job (fun t a ha => hshape t a (List.mem_cons.mpr (Or.inr ha)))
    · simp only [replayPersists]
      have hpp : persistProgs (StreamEvent.observe t0 :: rest) =
          persistProgs rest := rfl
      rw [hpp]
      exact ih job (fun t a ha => hshape t a (List.mem_cons.mpr (Or.inr ha)))
    · obtain ⟨tp, errs, ha0⟩ := hshape t0 a0 (List.mem_cons.mpr (Or.inl rfl))
      subst ha0
      simp only [replayPersists]
      have hpp : persistProgs
          (StreamEvent.persist t0 (progressArgs tp N errs) :: rest) =
          progFormula N tp :: persistProgs rest := rfl
      rw [hpp]
      rcases applyUpdate_progressArgs_cases sig t0 job tp N errs with
        hop | ⟨j, hop, hj⟩
      · rw [hop]
        simp only [Option.toList_none, List.nil_append]
        exact List.Sublist.cons _ (ih _
          (fun t a ha => hshape t a (List.mem_cons.mpr (Or.inr ha))))
      · rw [hop]
        simp only [Option.toList_some, List.singleton_append]
        rw [show ((⟨["phase", "status", "progress", "processed_records",
            "errors", "last_updated_at"], j⟩ : SaveOp) ::
            (replayPersists sig (applyUpdate sig t0 job
              (progressArgs tp N errs)).1 rest).2) =
            [(⟨["phase", "status", "progress", "processed_records",
              "errors", "last_updated_at"], j⟩ : SaveOp)] ++
            (replayPersists sig (applyUpdate sig t0 job
              (progressArgs tp N errs)).1 rest).2 from rfl]
        rw [progressSeq_append, progressSeq_some _ _ (by decide), hj.1,
          List.singleton_append]
        exact List.Sublist.cons₂ _ (ih _
          (fun t a ha => hshape t a (List.mem_cons.mpr (Or.inr ha))))

/-- The attempted progress values are non-decreasing along the loop, and
bounded by the formula at the current processed count. -/
theorem stream_loop_progs_pairwise (sig : Option Nat) (N bsz : Nat)
    (gen : List (CsvRecord × Nat)) (st : StreamState)
    (hp : List.Pairwise (· ≤ ·) (persistProgs st.trace))
    (hb : ∀ v ∈ persistProgs st.trace,
      v ≤ progFormula N st.total_processed) :
    List.Pairwise (· ≤ ·)
      (persistProgs (stream_loop sig N bsz gen st).trace) ∧
    (∀ v ∈ persistProgs (stream_loop sig N bsz gen st).trace,
      v ≤ progFormula N (stream_loop sig N bsz gen st).total_processed) := by
  induction gen generalizing st with
  | nil =>
    rw [stream_loop_nil]
    exact ⟨hp, hb⟩
  | cons p rest ih =>
    obtain ⟨record, row⟩ := p
    rw [stream_loop]
    by_cases hc : (st.records_seen + 1) % 1000 = 0 ∧
        sigCancelled sig (st.records_seen + 1) = true
    · rw [if_pos hc]
      simp only [persistProgs_append]
      have hobs : persistProgs [StreamEvent.observe (st.records_seen + 1)] =
          [] := rfl
      rw [hobs, List.append_nil]
      exact ⟨hp, hb⟩
    · rw [if_neg hc]
      rcases hv : validate_csv_record record with ⟨b, msg⟩
      cases b
      · simp only [hv]
        exact ih _ hp hb
      · simp only [hv]
        by_cases hs : bsz ≤ (st.micro_batch ++ [rowOf record row]).length
        · rw [if_pos hs]
          rcases hpm : process_micro_batch
              (st.micro_batch ++ [rowOf record row]) st.dict st.store
            with ⟨processed, errors, dict', store'⟩
          simp only [hpm]
          apply ih
          · simp only [persistProgs_append]
            rw [show persistProgs [StreamEvent.commit
                  (st.micro_batch ++ [rowOf record row]),
                  StreamEvent.persist (st.records_seen + 1)
                    (progressArgs (st.total_processed + processed) N
                      (st.all_errors ++ errors))] =
                [progFormula N (st.total_processed + processed)] from rfl]
            rw [List.pairwise_append]
            refine ⟨hp, List.pairwise_singleton _ _, ?_⟩
            intro a ha b hbmem
            simp only [List.mem_singleton] at hbmem
            subst hbmem
            exact le_trans (hb a ha)
              (progFormula_mono N (Nat.le_add_right _ _))
          · intro v hvv
            simp only [persistProgs_append] at hvv
            rcases List.mem_append.mp hvv with hvv | hvv
            · exact le_trans (hb v hvv)
                (progFormula_mono N (Nat.le_add_right _ _))
            · rw [show persistProgs [StreamEvent.commit
                    (st.micro_batch ++ [rowOf record row]),
                    StreamEvent.persist (st.records_seen + 1)
                      (progressArgs (st.total_processed + processed) N
                        (st.all_errors ++ errors))] =
                  [progFormula N (st.total_processed + processed)] from rfl]
                at hvv
              simp only [List.mem_singleton] at hvv
              subst hvv
              exact Nat.le_refl _
        · rw [if_neg hs]
          exact ih _ hp hb

/-- Full-run version: the attempted progress values are non-decreasing and
each is a formula value bounded by 99. -/
theorem process_csv_stream_progs (sig : Option Nat)
    (gen : List (CsvRecord × Nat)) (d : SkuDict) (s : Store) (N bsz : Nat) :
    List.Pairwise (· ≤ ·)
      (persistProgs (process_csv_stream sig gen d s N bsz).trace) ∧
    (∀ v ∈ persistProgs (process_csv_stream sig gen d s N bsz).trace,
      15 ≤ v ∧ v ≤ 99) := by
  have hloop := stream_loop_progs_pairwise sig N bsz gen
    ⟨0, 0, [], [], 0, 0, d, s, [], false⟩ (by simp [persistProgs])
    (by intro v hv; simp [persistProgs] at hv)
  have hshape := (process_csv_stream_persist_shape sig gen d s N bsz).1
  have hmemb : ∀ v ∈ persistProgs
      (process_csv_stream sig gen d s N bsz).trace, 15 ≤ v ∧ v ≤ 99 := by
    intro v hvv
    obtain ⟨t, a, hmem, hprog⟩ := persistProgs_mem _ v hvv
    obtain ⟨tp, errs, ha, -, -⟩ := hshape t a hmem
    subst ha
    rw [progressArgs_progress] at hprog
    simp only [Option.some_inj] at hprog
    subst hprog
    exact ⟨progFormula_ge_15 N tp, progFormula_le_99 N tp⟩
  refine ⟨?_, hmemb⟩
  unfold process_csv_stream
  rcases hst : stream_loop sig N bsz gen
    ⟨0, 0, [], [], 0, 0, d, s, [], false⟩ with
    ⟨tp, te, ae, mb, bc, rs, dct, str, tr, cl⟩
  rw [hst] at hloop
  simp only at hloop
  by_cases hmb : mb ≠ []
  · rw [if_pos hmb]
    rcases hpm : process_micro_batch mb dct str with ⟨pr, er, d2, s2⟩
    simp only [persistProgs_append]
    rw [show persistProgs [StreamEvent.commit mb] = [] from rfl,
      List.append_nil]
    exact hloop.1
  · rw [if_neg hmb]
    exact hloop.1

/-! ## C7: how often `total_records` is persisted -/

/-- C7 counterexample: on the spec's 3-row end-to-end file, the completed
run persists the `total_records` field in two writes — once after the
counting pass and again in the final completion write — not exactly once. -/
theorem total_records_written_twice :
    ((process_csv_import_task file3 [] none newImportJob).writes.filter
      (fun w => w.fields.contains "total_records")).length = 2 := by
  rfl

/-- C7 amended: in every completed (header-valid, uncancelled) run the
`total_records` field is persisted exactly twice — by the write after the
counting pass and by the final completion write — and both writes carry the
same counted value, which never changes in between. -/
theorem total_records_two_writes (file : CsvFile) (store : Store)
    (hh : validate_csv_headers file.headers = (true, none)) :
    ((process_csv_import_task file store none newImportJob).writes.filter
      (fun w => w.fields.contains "total_records")).map
      (fun w => w.job.total_records) =
      [file.rows.length, file.rows.length] := by
  rw [task_none_shape file store hh]
  have hshape := (process_csv_stream_persist_shape none (csvGen file)
    (preload_existing_skus store) store file.rows.length 500).1
  have hcases := replayPersists_ops_cases none file.rows.length
    ⟨"processing", "parsing", 15, file.rows.length, 0, [], some "task-id",
      none, 0, false⟩
    (process_csv_stream none (csvGen file) (preload_existing_skus store)
      store file.rows.length 500).trace
    (fun t a ha => (hshape t a ha).imp
      (fun tp h => h.imp (fun errs h2 => h2.1)))
  simp [List.filter_cons, List.filter_append]
  intro a ha
  obtain ⟨hf, -, -⟩ := hcases a ha
  rw [hf]
  decide

/-- Witness for the amended C7 on the 3-row file. -/
theorem total_records_two_writes_witness :
    ((process_csv_import_task file3 [] none newImportJob).writes.filter
      (fun w => w.fields.contains "total_records")).map
      (fun w => w.job.total_records) =
      [file3.rows.length, file3.rows.length] :=
  total_records_two_writes file3 [] rfl

/-! ## C8: the persisted error log is bounded and lossy, counts exact -/

/-- C8: the stream's reported error count equals the number of all errors
encountered; every progress persist carries `pyTail100` of a prefix of the
accumulated error log — at most 100 entries, and exactly the most recent
100 once the accumulation exceeds 100; and in a completed task run every
persisted save that names the `errors` field stores at most 100 entries. -/
theorem error_log_bounded_lossy (sig : Option Nat)
    (gen : List (CsvRecord × Nat)) (d : SkuDict) (s : Store) (N bsz : Nat) :
    (process_csv_stream sig gen d s N bsz).total_errors =
      (process_csv_stream sig gen d s N bsz).all_errors.length ∧
    (∀ t a, StreamEvent.persist t a ∈
        (process_csv_stream sig gen d s N bsz).trace →
      ∃ errs rest, errs ++ rest =
          (process_csv_stream sig gen d s N bsz).all_errors ∧
        a.errors = some (pyTail100 errs) ∧
        (pyTail100 errs).length ≤ 100 ∧
        (100 < errs.length →
          pyTail100 errs = errs.drop (errs.length - 100))) ∧
    (∀ file store, validate_csv_headers file.headers = (true, none) →
      ∀ w ∈ (process_csv_import_task file store none newImportJob).writes,
        w.fields.contains "errors" = true → w.job.errors.length ≤ 100) := by
  refine ⟨(process_csv_stream_persist_shape sig gen d s N bsz).2, ?_, ?_⟩
  · intro t a ha
    obtain ⟨tp, errs, haeq, ⟨rest, hrest⟩, -⟩ :=
      (process_csv_stream_persist_shape sig gen d s N bsz).1 t a ha
    subst haeq
    exact ⟨errs, rest, hrest, rfl, pyTail100_length_le errs,
      fun h => pyTail100_eq_drop errs h⟩
  · intro file store hh w hw hwf
    rw [task_none_shape file store hh] at hw
    have hshape := (process_csv_stream_persist_shape none (csvGen file)
      (preload_existing_skus store) store file.rows.length 500).1
    have hcases := replayPersists_ops_cases none file.rows.length
      ⟨"processing", "parsing", 15, file.rows.length, 0, [], some "task-id",
        none, 0, false⟩
      (process_csv_stream none (csvGen file) (preload_existing_skus store)
        store file.rows.length 500).trace
      (fun t a ha => (hshape t a ha).imp
        (fun tp h => h.imp (fun errs h2 => h2.1)))
    have hreplay := replayPersists_ops file.rows.length
      ⟨"processing", "parsing", 15, file.rows.length, 0, [], some "task-id",
        none, 0, false⟩
      (process_csv_stream none (csvGen file) (preload_existing_skus store)
        store file.rows.length 500).trace rfl
      (fun t a ha => (hshape t a ha).imp
        (fun tp h => h.imp (fun errs h2 => h2.1)))
    simp only at hw
    rcases List.mem_cons.mp hw with hw | hw
    · subst hw
      simp at hwf
    · rcases List.mem_cons.mp hw with hw | hw
      · subst hw
        simp at hwf
      · rcases List.mem_append.mp hw with hw | hw
        · obtain ⟨-, tp, errs, -, herrs, -, -⟩ := hreplay.2.2 w hw
          rw [herrs]
          exact pyTail100_length_le errs
        · simp only [List.mem_singleton] at hw
          subst hw
          exact pyTail100_length_le _

/-- Witness for C8: a 1-record run with batch size 1 commits one batch and
persists one progress write whose error slice is the capped empty log. -/
theorem error_log_bounded_lossy_witness :
    (process_csv_stream none [(recA, 2)] [] [] 1 1).total_errors =
      (process_csv_stream none [(recA, 2)] [] [] 1 1).all_errors.length ∧
    (∃ errs rest, errs ++ rest =
        (process_csv_stream none [(recA, 2)] [] [] 1 1).all_errors ∧
      (progressArgs 1 1 []).errors = some (pyTail100 errs) ∧
      (pyTail100 errs).length ≤ 100 ∧
      (100 < errs.length →
        pyTail100 errs = errs.drop (errs.length - 100))) :=
  ⟨(error_log_bounded_lossy none [(recA, 2)] [] [] 1 1).1,
   (error_log_bounded_lossy none [(recA, 2)] [] [] 1 1).2.1 1
     (progressArgs 1 1 []) (by decide)⟩

/-! ## C2: persisted progress monotonicity and the value 100 -/

/-- C2 counterexample: a run that fails (here: missing `Description`
header) first persists progress 15 and then persists progress 0 in the
failure write — the persisted progress sequence [15, 0] is not
monotonically non-decreasing. -/
theorem progress_resets_on_failure :
    progressSeq (process_csv_import_task fileBadHeader [] none
      newImportJob).writes = [15, 0] ∧
    ¬ List.Pairwise (· ≤ ·)
      (progressSeq (process_csv_import_task fileBadHeader [] none
        newImportJob).writes) := by
  constructor
  · rfl
  · intro h
    rw [show progressSeq (process_csv_import_task fileBadHeader [] none
      newImportJob).writes = [15, 0] from rfl] at h
    have := List.rel_of_pairwise_cons h (List.mem_singleton.mpr rfl)
    omega

/-- C2 amended: on every run that does not end in the failure write —
under any cancellation signal — the persisted progress sequence is
monotonically non-decreasing (the failure write resets progress to 0); and
on every run, under any cancellation signal, a persisted progress of
exactly 100 occurs only in a save that also sets `status=completed`. -/
theorem progress_monotone_100_completed (file : CsvFile) (store : Store)
    (sig : Option Nat) :
    ((process_csv_import_task file store sig newImportJob).failed = false →
      List.Pairwise (· ≤ ·)
        (progressSeq (process_csv_import_task file store sig
          newImportJob).writes)) ∧
    (∀ w ∈ (process_csv_import_task file store sig newImportJob).writes,
      w.fields.contains "progress" = true → w.job.progress = 100 →
      w.job.status = "completed" ∧ w.fields.contains "status" = true) := by
  constructor
  · unfold process_csv_import_task
    rcases h1 : applyUpdate sig 0 newImportJob startArgs with ⟨job1, op1⟩
    simp only [h1]
    have hop1 : progressSeq op1.toList = [] ∨
        progressSeq op1.toList = [15] := by
      rcases applyUpdate_startArgs_cases sig 0 newImportJob with
        hn | ⟨j, hs, hpj⟩
      · rw [h1] at hn
        simp only at hn
        rw [hn]
        left
        rfl
      · rw [h1] at hs
        simp only at hs
        rw [hs]
        right
        simp only [Option.toList_some]
        rw [progressSeq_some _ _ (by decide), hpj]
    by_cases hc1 : (readJob sig 0 job1).status = "cancelled"
    · rw [if_pos hc1]
      intro _
      show List.Pairwise (· ≤ ·) (progressSeq op1.toList)
      rcases hop1 with h | h <;> rw [h]
      · exact List.Pairwise.nil
      · exact List.pairwise_singleton _ _
    · rw [if_neg hc1, if_neg hc1]
      rcases hcnt : count_csv_records file with msg | N
      · simp only [hcnt]
        rcases h2 : applyUpdate sig 0 job1 (failArgs msg) with ⟨job2, opF⟩
        simp only [h2]
        intro hnf
        exact Bool.noConfusion hnf
      · simp only [hcnt]
        rcases h3 : applyUpdate sig 0 job1 (totalArgs N) with ⟨job3, op2⟩
        simp only [h3]
        have hop2 : progressSeq op2.toList = [] := by
          rcases applyUpdate_totalArgs_cases sig 0 job1 N with
            hn | ⟨j, hs2, -⟩
          · rw [h3] at hn
            simp only at hn
            rw [hn]
            rfl
          · rw [h3] at hs2
            simp only at hs2
            rw [hs2]
            simp only [Option.toList_some]
            exact progressSeq_no_field _ _ (by decide)
        by_cases hc3 : (readJob sig 0 job3).status = "cancelled"
        · rw [if_pos hc3]
          intro _
          show List.Pairwise (· ≤ ·)
            (progressSeq (op1.toList ++ op2.toList))
          rw [progressSeq_append, hop2, List.append_nil]
          rcases hop1 with h | h <;> rw [h]
          · exact List.Pairwise.nil
          · exact List.pairwise_singleton _ _
        · rw [if_neg hc3]
          rcases hstr : stream_csv_from_s3 file with msg | gen
          · simp only [hstr]
            rcases h2 : applyUpdate sig 0 job3 (failArgs msg) with
              ⟨job2, opF⟩
            simp only [h2]
            intro hnf
            exact Bool.noConfusion hnf
          · simp only [hstr]
            rcases h4 : replayPersists sig job3
                (process_csv_stream sig gen (preload_existing_skus store)
                  store N 500).trace with ⟨jobF, sOps⟩
            simp only [h4]
            have hsh := (process_csv_stream_persist_shape sig gen
              (preload_existing_skus store) store N 500).1
            have hsub := replayPersists_progressSeq sig N
              (process_csv_stream sig gen (preload_existing_skus store)
                store N 500).trace job3
              (fun t a ha => (hsh t a ha).imp
                (fun tp h => h.imp (fun errs h2 => h2.1)))
            rw [h4] at hsub
            have hprogs := process_csv_stream_progs sig gen
              (preload_existing_skus store) store N 500
            have hpairS : List.Pairwise (· ≤ ·) (progressSeq sOps) :=
              hprogs.1.sublist hsub
            have hmemS : ∀ v ∈ progressSeq sOps, 15 ≤ v ∧ v ≤ 99 :=
              fun v hv => hprogs.2 v (hsub.subset hv)
            have hpre : List.Pairwise (· ≤ ·)
                (progressSeq op1.toList ++ progressSeq sOps) := by
              rcases hop1 with h | h <;> rw [h]
              · rw [List.nil_append]
                exact hpairS
              · rw [List.singleton_append, List.pairwise_cons]
                exact ⟨fun b hb => (hmemS b hb).1, hpairS⟩
            by_cases hc4 : (readJob sig
                (process_csv_stream sig gen (preload_existing_skus store)
                  store N 500).records_seen jobF).status = "cancelled"
            · rw [if_pos hc4]
              intro _
              show List.Pairwise (· ≤ ·)
                (progressSeq ((op1.toList ++ op2.toList) ++ sOps))
              rw [progressSeq_append, progressSeq_append, hop2,
                List.append_nil]
              exact hpre
            · rw [if_neg hc4]
              rcases h5 : applyUpdate sig
                  (process_csv_stream sig gen (preload_existing_skus store)
                    store N 500).records_seen jobF
                  (completedArgs (process_csv_stream sig gen
                    (preload_existing_skus store) store
                    N 500).total_processed N
                    (process_csv_stream sig gen
                      (preload_existing_skus store) store
                      N 500).all_errors) with ⟨jobC, opC⟩
              simp only [h5]
              intro _
              show List.Pairwise (· ≤ ·)
                (progressSeq (((op1.toList ++ op2.toList) ++ sOps) ++
                  opC.toList))
              have hopC : progressSeq opC.toList = [] ∨
                  progressSeq opC.toList = [100] := by
                rcases applyUpdate_completedArgs_cases sig
                    (process_csv_stream sig gen
                      (preload_existing_skus store) store
                      N 500).records_seen jobF
                    (process_csv_stream sig gen
                      (preload_existing_skus store) store
                      N 500).total_processed N
                    (process_csv_stream sig gen
                      (preload_existing_skus store) store
                      N 500).all_errors with hn | ⟨j, hs5, hpj⟩
                · rw [h5] at hn
                  simp only at hn
                  rw [hn]
                  left
                  rfl
                · rw [h5] at hs5
                  simp only at hs5
                  rw [hs5]
                  right
                  simp only [Option.toList_some]
                  rw [progressSeq_some _ _ (by decide), hpj.1]
              rw [progressSeq_append, progressSeq_append,
                progressSeq_append, hop2, List.append_nil]
              rw [List.pairwise_append]
              refine ⟨hpre, ?_, ?_⟩
              · rcases hopC with h | h <;> rw [h]
                · exact List.Pairwise.nil
                · exact List.pairwise_singleton _ _
              · intro a ha b hb
                rcases hopC with h | h
                · rw [h] at hb
                  exact absurd hb (List.not_mem_nil b)
                · rw [h] at hb
                  simp only [List.mem_singleton] at hb
                  subst hb
                  rcases List.mem_append.mp ha with ha | ha
                  · rcases hop1 with h1' | h1'
                    · rw [h1'] at ha
                      exact absurd ha (List.not_mem_nil a)
                    · rw [h1'] at ha
                      simp only [List.mem_singleton] at ha
                      omega
                  · exact le_trans (hmemS a ha).2 (by omega)
  · intro w hw hwf hw100
    rcases task_writes_progress_inventory file store sig w hw hwf with
      hle | ⟨-, hst, hsf⟩
    · omega
    · exact ⟨hst, hsf⟩

/-- Witness for the amended C2 on the 3-row file: the run does not fail
and its persisted progress sequence is non-decreasing. -/
theorem progress_monotone_100_completed_witness :
    (process_csv_import_task file3 [] none newImportJob).failed = false ∧
    List.Pairwise (· ≤ ·)
      (progressSeq (process_csv_import_task file3 [] none
        newImportJob).writes) :=
  ⟨rfl, (progress_monotone_100_completed file3 [] none).1 rfl⟩

/-! ## C5: what happens after a cancellation is observed -/

theorem commitSum_append (t1 t2 : List StreamEvent) :
    commitSum (t1 ++ t2) = commitSum t1 + commitSum t2 := by
  unfold commitSum
  rw [List.map_append, List.sum_append]

/-- If the loop ends cancelled, its trace ends with the observation event
(nothing is traced after it) and the signal reads cancelled at the final
`records_seen`. -/
theorem stream_loop_cancel_shape (sig : Option Nat) (N bsz : Nat)
    (gen : List (CsvRecord × Nat)) (st : StreamState)
    (h0 : st.cancelled = false) :
    (stream_loop sig N bsz gen st).cancelled = false ∨
    (∃ pre, (stream_loop sig N bsz gen st).trace =
        pre ++ [StreamEvent.observe
          (stream_loop sig N bsz gen st).records_seen] ∧
      sigCancelled sig (stream_loop sig N bsz gen st).records_seen =
        true) := by
  induction gen generalizing st with
  | nil =>
    rw [stream_loop_nil]
    exact Or.inl h0
  | cons p rest ih =>
    obtain ⟨record, row⟩ := p
    rw [stream_loop]
    by_cases hc : (st.records_seen + 1) % 1000 = 0 ∧
        sigCancelled sig (st.records_seen + 1) = true
    · rw [if_pos hc]
      exact Or.inr ⟨st.trace, rfl, hc.2⟩
    · rw [if_neg hc]
      rcases hv : validate_csv_record record with ⟨b, msg⟩
      cases b
      · simp only [hv]
        exact ih _ h0
      · simp only [hv]
        by_cases hs : bsz ≤ (st.micro_batch ++ [rowOf record row]).length
        · rw [if_pos hs]
          rcases hpm : process_micro_batch
              (st.micro_batch ++ [rowOf record row]) st.dict st.store
            with ⟨processed, errors, dict', store'⟩
          simp only [hpm]
          exact ih _ h0
        · rw [if_neg hs]
          exact ih _ h0

/-- `total_processed` always equals the number of records committed by the
catalog writes of the trace. -/
theorem stream_loop_commitSum (sig : Option Nat) (N bsz : Nat)
    (gen : List (CsvRecord × Nat)) (st : StreamState)
    (h : st.total_processed = commitSum st.trace) :
    (stream_loop sig N bsz gen st).total_processed =
      commitSum (stream_loop sig N bsz gen st).trace := by
  induction gen generalizing st with
  | nil =>
    rw [stream_loop_nil]
    exact h
  | cons p rest ih =>
    obtain ⟨record, row⟩ := p
    rw [stream_loop]
    by_cases hc : (st.records_seen + 1) % 1000 = 0 ∧
        sigCancelled sig (st.records_seen + 1) = true
    · rw [if_pos hc]
      simp only [commitSum_append]
      rw [show commitSum [StreamEvent.observe (st.records_seen + 1)] = 0
        from rfl]
      omega
    · rw [if_neg hc]
      rcases hv : validate_csv_record record with ⟨b, msg⟩
      cases b
      · simp only [hv]
        exact ih _ h
      · simp only [hv]
        by_cases hs : bsz ≤ (st.micro_batch ++ [rowOf record row]).length
        · rw [if_pos hs]
          rcases hpm : process_micro_batch
              (st.micro_batch ++ [rowOf record row]) st.dict st.store
            with ⟨processed, errors, dict', store'⟩
          have hpr : processed = (st.micro_batch ++ [rowOf record row]).length := by
            have h0 := process_micro_batch_processed
              (st.micro_batch ++ [rowOf record row]) st.dict st.store
            rw [hpm] at h0
            exact h0
          simp only [hpm]
          apply ih
          simp only [commitSum_append]
          rw [show commitSum [StreamEvent.commit
              (st.micro_batch ++ [rowOf record row]),
              StreamEvent.persist (st.records_seen + 1)
                (progressArgs (st.total_processed + processed) N
                  (st.all_errors ++ errors))] =
            (st.micro_batch ++ [rowOf record row]).length + 0 from rfl]
          omega
        · rw [if_neg hs]
          exact ih _ h

/-- The loop of an all-valid run refines its control-flow skeleton. -/
theorem stream_loop_skel (sig : Option Nat) (N bsz : Nat)
    (gen : List (CsvRecord × Nat)) :
    ∀ (st : StreamState) (s : SkelState),
    s.total_processed = st.total_processed →
    s.micro_len = st.micro_batch.length →
    s.records_seen = st.records_seen →
    s.kinds = st.trace.map eventKind →
    s.cancelled = st.cancelled →
    (∀ p ∈ gen, validate_csv_record p.1 = (true, none)) →
    skel_run sig bsz gen.length s =
      ⟨(stream_loop sig N bsz gen st).total_processed,
       (stream_loop sig N bsz gen st).micro_batch.length,
       (stream_loop sig N bsz gen st).records_seen,
       (stream_loop sig N bsz gen st).trace.map eventKind,
       (stream_loop sig N bsz gen st).cancelled⟩ := by
  induction gen with
  | nil =>
    intro st s h1 h2 h3 h4 h5 _
    rw [stream_loop_nil, List.length_nil, skel_run]
    obtain ⟨a, b, c, d, e⟩ := s
    simp only at h1 h2 h3 h4 h5
    rw [h1, h2, h3, h4, h5]
  | cons p rest ih =>
    obtain ⟨record, row⟩ := p
    intro st s h1 h2 h3 h4 h5 hall
    have hv := hall (record, row) (List.mem_cons.mpr (Or.inl rfl))
    obtain ⟨a, b, c, d, e⟩ := s
    simp only at h1 h2 h3 h4 h5
    subst h1 h2 h3 h4 h5
    rw [stream_loop, List.length_cons, skel_run]
    simp only
    by_cases hc : (st.records_seen + 1) % 1000 = 0 ∧
        sigCancelled sig (st.records_seen + 1) = true
    · rw [if_pos hc, if_pos hc]
      simp [eventKind]
    · rw [if_neg hc, if_neg hc]
      simp only [hv]
      have hlen : (st.micro_batch ++ [rowOf record row]).length =
          st.micro_batch.length + 1 := by simp
      by_cases hs : bsz ≤ st.micro_batch.length + 1
      · rw [if_pos hs, if_pos (show bsz ≤
          (st.micro_batch ++ [rowOf record row]).length by
            rw [hlen]; exact hs)]
        rcases hpm : process_micro_batch
            (st.micro_batch ++ [rowOf record row]) st.dict st.store
          with ⟨processed, errors, dict', store'⟩
        have hproc : processed = st.micro_batch.length + 1 := by
          have h0 := process_micro_batch_processed
            (st.micro_batch ++ [rowOf record row]) st.dict st.store
          rw [hpm] at h0
          rw [← hlen]
          exact h0
        apply ih _ _ (by rw [hproc]) rfl rfl (by simp [eventKind]) rfl
          (fun q hq => hall q (List.mem_cons.mpr (Or.inr hq)))
      · rw [if_neg hs, if_neg (show ¬ bsz ≤
          (st.micro_batch ++ [rowOf record row]).length by
            rw [hlen]; exact hs)]
        apply ih _ _ rfl (by simp) rfl rfl rfl
          (fun q hq => hall q (List.mem_cons.mpr (Or.inr hq)))

/-- Skeleton runs compose as long as the first leg does not observe the
cancellation (each observation stops the run, so an uncancelled end state
means every step of the leg was a normal one). -/
theorem skel_run_add (sig : Option Nat) (bsz : Nat) :
    ∀ (a b : Nat) (s : SkelState),
    (skel_run sig bsz a s).cancelled = false →
    skel_run sig bsz (a + b) s =
      skel_run sig bsz b (skel_run sig bsz a s) := by
  intro a
  induction a with
  | zero =>
    intro b s _
    rw [Nat.zero_add]
    rfl
  | succ a ih =>
    intro b s hfin
    rw [show a + 1 + b = a + b + 1 from by omega]
    rw [skel_run]
    conv_rhs => rw [skel_run]
    rw [skel_run] at hfin
    by_cases h1 : (s.records_seen + 1) % 1000 = 0 ∧
        sigCancelled sig (s.records_seen + 1) = true
    · rw [if_pos h1] at hfin
      simp at hfin
    · rw [if_neg h1] at hfin ⊢
      conv_rhs => rw [if_neg h1]
      by_cases h2 : bsz ≤ s.micro_len + 1
      · rw [if_pos h2] at hfin ⊢
        conv_rhs => rw [if_pos h2]
        exact ih b _ hfin
      · rw [if_neg h2] at hfin ⊢
        conv_rhs => rw [if_neg h2]
        exact ih b _ hfin

set_option maxRecDepth 100000 in
/-- The first 500 records of the cancelled skeleton run: one committed
batch of 500 with its persist. -/
theorem skel_cancel_eval_front :
    skel_run (some 1) 500 500 ⟨0, 0, 0, [], false⟩ =
      ⟨500, 0, 500, [0, 1], false⟩ := by
  rfl

set_option maxRecDepth 100000 in
/-- The last 500 records of the cancelled skeleton run: 499 rows
accumulate, then the 1000-record refresh observes the cancellation. -/
theorem skel_cancel_eval_back :
    skel_run (some 1) 500 500 ⟨500, 0, 500, [0, 1], false⟩ =
      ⟨500, 499, 1000, [0, 1, 2], true⟩ := by
  rfl

/-- The skeleton of the 1000-record cancelled run, evaluated: one committed
batch of 500 with its persist, then the observation at the 1000-record
refresh, leaving 499 accumulated rows pending. -/
theorem skel_cancel_eval :
    skel_run (some 1) 500 1000 ⟨0, 0, 0, [], false⟩ =
      ⟨500, 499, 1000, [0, 1, 2], true⟩ := by
  rw [show (1000 : Nat) = 500 + 500 from rfl]
  rw [skel_run_add (some 1) 500 500 500 ⟨0, 0, 0, [], false⟩
    (by rw [skel_cancel_eval_front])]
  rw [skel_cancel_eval_front, skel_cancel_eval_back]

/-- Every record of `gen1000` passes validation. -/
theorem gen1000_valid :
    ∀ p ∈ gen1000, validate_csv_record p.1 = (true, none) := by
  intro p hp
  obtain ⟨i, -, rfl⟩ := List.mem_map.mp hp
  rfl

/-- Projections of a stream run whose loop leaves a nonempty pending
micro-batch: the final flush appends one commit event and its rows. -/
theorem process_csv_stream_flush_proj (sig : Option Nat)
    (gen : List (CsvRecord × Nat)) (d : SkuDict) (s : Store) (N bsz : Nat)
    (hne : (stream_loop sig N bsz gen
      ⟨0, 0, [], [], 0, 0, d, s, [], false⟩).micro_batch ≠ []) :
    (process_csv_stream sig gen d s N bsz).trace.map eventKind =
      (stream_loop sig N bsz gen
        ⟨0, 0, [], [], 0, 0, d, s, [], false⟩).trace.map eventKind ++ [0] ∧
    (process_csv_stream sig gen d s N bsz).total_processed =
      (stream_loop sig N bsz gen
        ⟨0, 0, [], [], 0, 0, d, s, [], false⟩).total_processed +
      (stream_loop sig N bsz gen
        ⟨0, 0, [], [], 0, 0, d, s, [], false⟩).micro_batch.length ∧
    (process_csv_stream sig gen d s N bsz).cancelled =
      (stream_loop sig N bsz gen
        ⟨0, 0, [], [], 0, 0, d, s, [], false⟩).cancelled := by
  unfold process_csv_stream
  rcases hst : stream_loop sig N bsz gen
    ⟨0, 0, [], [], 0, 0, d, s, [], false⟩ with
    ⟨tp, te, ae, mb, bc, rs, dct, str, tr, cl⟩
  rw [hst] at hne
  simp only at hne ⊢
  rw [if_pos hne]
  rcases hpm : process_micro_batch mb dct str with ⟨pr, er, d2, s2⟩
  have hproc : pr = mb.length := by
    have h0 := process_micro_batch_processed mb dct str
    rw [hpm] at h0
    exact h0
  simp only
  refine ⟨?_, by rw [hproc], by simp⟩
  simp [eventKind]

/-- The loop skeleton of the concrete cancelled run, transported to the
loop itself. -/
theorem cancelRun_loop_proj :
    (⟨(stream_loop (some 1) 1000 500 gen1000
        ⟨0, 0, [], [], 0, 0, [], [], [], false⟩).total_processed,
      (stream_loop (some 1) 1000 500 gen1000
        ⟨0, 0, [], [], 0, 0, [], [], [], false⟩).micro_batch.length,
      (stream_loop (some 1) 1000 500 gen1000
        ⟨0, 0, [], [], 0, 0, [], [], [], false⟩).records_seen,
      (stream_loop (some 1) 1000 500 gen1000
        ⟨0, 0, [], [], 0, 0, [], [], [], false⟩).trace.map eventKind,
      (stream_loop (some 1) 1000 500 gen1000
        ⟨0, 0, [], [], 0, 0, [], [], [], false⟩).cancelled⟩ : SkelState) =
      ⟨500, 499, 1000, [0, 1, 2], true⟩ := by
  have hskel := stream_loop_skel (some 1) 1000 500 gen1000
    ⟨0, 0, [], [], 0, 0, [], [], [], false⟩ ⟨0, 0, 0, [], false⟩
    rfl rfl rfl rfl rfl gen1000_valid
  have hlen : gen1000.length = 1000 := by
    unfold gen1000
    rw [List.length_map, List.length_range]
  rw [hlen, skel_cancel_eval] at hskel
  exact hskel.symm

/-- The concrete 1000-record run with the cancel request after record 1
ends cancelled. -/
theorem cancelRun_cancelled :
    (process_csv_stream (some 1) gen1000 [] [] 1000 500).cancelled =
      true := by
  have hp := cancelRun_loop_proj
  rw [SkelState.mk.injEq] at hp
  obtain ⟨e1, e2, e3, e4, e5⟩ := hp
  have hne : (stream_loop (some 1) 1000 500 gen1000
      ⟨0, 0, [], [], 0, 0, [], [], [], false⟩).micro_batch ≠ [] := by
    intro h
    rw [h] at e2
    exact absurd e2 (by decide)
  obtain ⟨-, -, f3⟩ :=
    process_csv_stream_flush_proj (some 1) gen1000 [] [] 1000 500 hne
  rw [f3]
  exact e5

/-- C5 counterexample: with a cancel request landing after the first
record, the 1000-record run commits one 500-row batch with its progress
persist, observes the cancellation at the `records_seen = 1000` refresh,
and then still performs one more catalog write — committing the 499-row
pending micro-batch — ending with `total_processed = 999`, not the 500 of
the batches committed before the observation. -/
theorem commit_after_cancellation_observed :
    (cancelRun.trace.map eventKind, cancelRun.total_processed,
      cancelRun.cancelled) = ([0, 1, 2, 0], 999, true) := by
  have hp := cancelRun_loop_proj
  rw [SkelState.mk.injEq] at hp
  obtain ⟨e1, e2, e3, e4, e5⟩ := hp
  have hne : (stream_loop (some 1) 1000 500 gen1000
      ⟨0, 0, [], [], 0, 0, [], [], [], false⟩).micro_batch ≠ [] := by
    intro h
    rw [h] at e2
    exact absurd e2 (by decide)
  obtain ⟨f1, f2, f3⟩ :=
    process_csv_stream_flush_proj (some 1) gen1000 [] [] 1000 500 hne
  have g1 : cancelRun.trace.map eventKind = [0, 1, 2, 0] := by
    show (process_csv_stream (some 1) gen1000 [] [] 1000
      500).trace.map eventKind = [0, 1, 2, 0]
    rw [f1, e4]
    rfl
  have g2 : cancelRun.total_processed = 999 := by
    show (process_csv_stream (some 1) gen1000 [] [] 1000
      500).total_processed = 999
    rw [f2, e1, e2]
  have g3 : cancelRun.cancelled = true := by
    show (process_csv_stream (some 1) gen1000 [] [] 1000 500).cancelled =
      true
    rw [f3]
    exact e5
  rw [g1, g2, g3]

/-- C5 amended: once the loop observes the cancelled status it stops
consuming the stream and performs at most one further catalog write — the
commit of the pending partial micro-batch (none if it is empty); the
observation event is the last event before that commit; `processed_records`
counts every committed batch including that final one; and the job's final
status is `cancelled` (the task's post-stream checkpoint reads the
cancelled row and skips the completion write). -/
theorem cancellation_tail_flush (sig : Option Nat)
    (gen : List (CsvRecord × Nat)) (d : SkuDict) (s : Store) (N bsz : Nat)
    (hc : (process_csv_stream sig gen d s N bsz).cancelled = true) :
    (∃ pre,
      (process_csv_stream sig gen d s N bsz).trace =
        pre ++ [StreamEvent.observe
          (process_csv_stream sig gen d s N bsz).records_seen] ∨
      ∃ mb, mb ≠ [] ∧
        (process_csv_stream sig gen d s N bsz).trace =
          pre ++ [StreamEvent.observe
            (process_csv_stream sig gen d s N bsz).records_seen,
            StreamEvent.commit mb]) ∧
    (process_csv_stream sig gen d s N bsz).total_processed =
      commitSum (process_csv_stream sig gen d s N bsz).trace ∧
    sigCancelled sig (process_csv_stream sig gen d s N bsz).records_seen =
      true ∧
    (∀ file store,
      validate_csv_headers file.headers = (true, none) →
      (process_csv_stream sig (csvGen file) (preload_existing_skus store)
        store file.rows.length 500).cancelled = true →
      (process_csv_import_task file store sig newImportJob).job.status =
        "cancelled") := by
  have hshape := stream_loop_cancel_shape sig N bsz gen
    ⟨0, 0, [], [], 0, 0, d, s, [], false⟩ rfl
  have hsum := stream_loop_commitSum sig N bsz gen
    ⟨0, 0, [], [], 0, 0, d, s, [], false⟩ rfl
  refine ⟨?_, ?_, ?_, ?_⟩
  · unfold process_csv_stream at hc ⊢
    rcases hst : stream_loop sig N bsz gen
      ⟨0, 0, [], [], 0, 0, d, s, [], false⟩ with
      ⟨tp, te, ae, mb, bc, rs, dct, str, tr, cl⟩
    rw [hst] at hshape hc
    simp only at hshape hc
    rcases hshape with hF | ⟨pre, htr, hsig⟩
    · by_cases hmb : mb ≠ []
      · rw [if_pos hmb] at hc
        rcases hpm : process_micro_batch mb dct str with ⟨pr, er, d2, s2⟩
        rw [hpm] at hc
        simp only at hc
        rw [hF] at hc
        exact absurd hc (by simp)
      · rw [if_neg hmb] at hc
        simp only at hc
        rw [hF] at hc
        exact absurd hc (by simp)
    · by_cases hmb : mb ≠ []
      · rw [if_pos hmb]
        rcases hpm : process_micro_batch mb dct str with ⟨pr, er, d2, s2⟩
        refine ⟨pre, Or.inr ⟨mb, hmb, ?_⟩⟩
        simp only
        rw [htr]
        simp
      · rw [if_neg hmb]
        exact ⟨pre, Or.inl htr⟩
  · unfold process_csv_stream at hc ⊢
    rcases hst : stream_loop sig N bsz gen
      ⟨0, 0, [], [], 0, 0, d, s, [], false⟩ with
      ⟨tp, te, ae, mb, bc, rs, dct, str, tr, cl⟩
    rw [hst] at hsum hc
    simp only at hsum hc
    by_cases hmb : mb ≠ []
    · rw [if_pos hmb]
      rcases hpm : process_micro_batch mb dct str with ⟨pr, er, d2, s2⟩
      have hpr : pr = mb.length := by
        have h0 := process_micro_batch_processed mb dct str
        rw [hpm] at h0
        exact h0
      simp only [commitSum_append]
      rw [show commitSum [StreamEvent.commit mb] = mb.length + 0 from rfl]
      omega
    · rw [if_neg hmb]
      exact hsum
  · unfold process_csv_stream at hc ⊢
    rcases hst : stream_loop sig N bsz gen
      ⟨0, 0, [], [], 0, 0, d, s, [], false⟩ with
      ⟨tp, te, ae, mb, bc, rs, dct, str, tr, cl⟩
    rw [hst] at hshape hc
    simp only at hshape hc
    rcases hshape with hF | ⟨pre, htr, hsig⟩
    · by_cases hmb : mb ≠ []
      · rw [if_pos hmb] at hc
        rcases hpm : process_micro_batch mb dct str with ⟨pr, er, d2, s2⟩
        rw [hpm] at hc
        simp only at hc
        rw [hF] at hc
        exact absurd hc (by simp)
      · rw [if_neg hmb] at hc
        simp only at hc
        rw [hF] at hc
        exact absurd hc (by simp)
    · by_cases hmb : mb ≠ []
      · rw [if_pos hmb]
        rcases hpm : process_micro_batch mb dct str with ⟨pr, er, d2, s2⟩
        exact hsig
      · rw [if_neg hmb]
        exact hsig
  · intro file store hh hcf
    have hsig2 : sigCancelled sig
        (process_csv_stream sig (csvGen file) (preload_existing_skus store)
          store file.rows.length 500).records_seen = true := by
      have hshape2 := stream_loop_cancel_shape sig file.rows.length 500
        (csvGen file)
        ⟨0, 0, [], [], 0, 0, preload_existing_skus store, store, [], false⟩
        rfl
      unfold process_csv_stream at hcf ⊢
      rcases hst2 : stream_loop sig file.rows.length 500 (csvGen file)
        ⟨0, 0, [], [], 0, 0, preload_existing_skus store, store, [],
          false⟩ with ⟨tp, te, ae, mb, bc, rs, dct, str, tr, cl⟩
      rw [hst2] at hshape2 hcf
      simp only at hshape2 hcf
      rcases hshape2 with hF | ⟨pre, htr, hsig⟩
      · by_cases hmb : mb ≠ []
        · rw [if_pos hmb] at hcf
          rcases hpm : process_micro_batch mb dct str with ⟨pr, er, d2, s2⟩
          rw [hpm] at hcf
          simp only at hcf
          rw [hF] at hcf
          exact absurd hcf (by simp)
        · rw [if_neg hmb] at hcf
          simp only at hcf
          rw [hF] at hcf
          exact absurd hcf (by simp)
      · by_cases hmb : mb ≠ []
        · rw [if_pos hmb]
          rcases hpm : process_micro_batch mb dct str with ⟨pr, er, d2, s2⟩
          exact hsig
        · rw [if_neg hmb]
          exact hsig
    have hcount : count_csv_records file = .ok file.rows.length := by
      unfold count_csv_records
      rw [hh]
    have hstream : stream_csv_from_s3 file = .ok (csvGen file) := by
      unfold stream_csv_from_s3 csvGen
      rw [hh]
    unfold process_csv_import_task
    rcases h1 : applyUpdate sig 0 newImportJob startArgs with ⟨job1, op1⟩
    simp only [h1]
    by_cases hc1 : (readJob sig 0 job1).status = "cancelled"
    · rw [if_pos hc1]
      exact hc1
    · rw [if_neg hc1, if_neg hc1]
      simp only [hcount]
      rcases h3 : applyUpdate sig 0 job1 (totalArgs file.rows.length) with
        ⟨job3, op2⟩
      simp only [h3]
      by_cases hc3 : (readJob sig 0 job3).status = "cancelled"
      · rw [if_pos hc3]
        exact hc3
      · rw [if_neg hc3]
        simp only [hstream]
        rcases h4 : replayPersists sig job3
            (process_csv_stream sig (csvGen file)
              (preload_existing_skus store) store
              file.rows.length 500).trace with ⟨jobF, sOps⟩
        simp only [h4]
        have hc4 : (readJob sig
            (process_csv_stream sig (csvGen file)
              (preload_existing_skus store) store
              file.rows.length 500).records_seen jobF).status =
            "cancelled" := by
          unfold readJob
          rw [hsig2]
          simp
        rw [if_pos hc4]
        exact hc4

/-- Witness for the amended C5 on the concrete 1000-record cancelled run. -/
theorem cancellation_tail_flush_witness :
    (∃ pre,
      cancelRun.trace =
        pre ++ [StreamEvent.observe cancelRun.records_seen] ∨
      ∃ mb, mb ≠ [] ∧
        cancelRun.trace =
          pre ++ [StreamEvent.observe cancelRun.records_seen,
            StreamEvent.commit mb]) ∧
    cancelRun.total_processed = commitSum cancelRun.trace ∧
    sigCancelled (some 1) cancelRun.records_seen = true :=
  (fun h => ⟨h.1, h.2.1, h.2.2.1⟩)
    (cancellation_tail_flush (some 1) gen1000 [] [] 1000 500
      cancelRun_cancelled)

/-! ## C4: idempotence of a second identical run

Properties of `preload_existing_skus`: its entries point at catalog rows
(`DictInv`) and every catalog key is covered with an identity (`Cov`). -/

theorem preload_dictInv (store : Store) :
    DictInv (preload_existing_skus store) store := by
  unfold preload_existing_skus
  suffices h : ∀ (l : List Product), (∀ p ∈ l, p ∈ store) →
      ∀ d : SkuDict, DictInv d store →
      DictInv (l.foldl (fun sku_dict product =>
        if (dictGet sku_dict (pyLower product.sku)).isSome then sku_dict
        else dictSet sku_dict (pyLower product.sku)
          ⟨some product.id, product.sku, product.name, product.description,
            product.active⟩) d) store by
    exact h store (fun p hp => hp) []
      (fun kv hkv => absurd hkv (List.not_mem_nil kv))
  intro l
  induction l with
  | nil => intro _ d hd; exact hd
  | cons p l ih =>
    intro hl d hd
    rw [List.foldl_cons]
    apply ih (fun q hq => hl q (List.mem_cons.mpr (Or.inr hq)))
    by_cases hs : (dictGet d (pyLower p.sku)).isSome
    · rw [if_pos hs]; exact hd
    · rw [if_neg hs]
      intro kv hkv i hi
      rcases mem_dictSet hkv with h | h
      · subst h
        simp only at hi
        simp only [Option.some_inj] at hi
        exact ⟨p, hl p (List.mem_cons.mpr (Or.inl rfl)), hi, rfl⟩
      · exact hd kv h i hi

theorem cov_preload_step (d : SkuDict) (p : Product) (k : String)
    (hc : Cov d k) :
    Cov (if (dictGet d (pyLower p.sku)).isSome then d
      else dictSet d (pyLower p.sku)
        ⟨some p.id, p.sku, p.name, p.description, p.active⟩) k := by
  by_cases hs : (dictGet d (pyLower p.sku)).isSome
  · rw [if_pos hs]; exact hc
  · rw [if_neg hs]
    obtain ⟨e, he, hei⟩ := hc
    by_cases hk : k = pyLower p.sku
    · subst hk
      rw [he] at hs
      simp at hs
    · exact ⟨e, by rw [dictGet_dictSet_ne d _ k _ hk]; exact he, hei⟩

theorem cov_preload_fold (l : List Product) :
    ∀ (d : SkuDict) (k : String), Cov d k →
    Cov (l.foldl (fun sku_dict product =>
      if (dictGet sku_dict (pyLower product.sku)).isSome then sku_dict
      else dictSet sku_dict (pyLower product.sku)
        ⟨some product.id, product.sku, product.name, product.description,
          product.active⟩) d) k := by
  induction l with
  | nil => intro d k hc; exact hc
  | cons p l ih =>
    intro d k hc
    rw [List.foldl_cons]
    exact ih _ k (cov_preload_step d p k hc)

theorem preload_covers (store : Store) :
    ∀ p ∈ store, Cov (preload_existing_skus store) (pyLower p.sku) := by
  unfold preload_existing_skus
  suffices h : ∀ (l : List Product) (d : SkuDict),
      (∀ kv ∈ d, kv.2.id.isSome) →
      ∀ p ∈ l, Cov (l.foldl (fun sku_dict product =>
        if (dictGet sku_dict (pyLower product.sku)).isSome then sku_dict
        else dictSet sku_dict (pyLower product.sku)
          ⟨some product.id, product.sku, product.name, product.description,
            product.active⟩) d) (pyLower p.sku) by
    intro p hp
    exact h store [] (fun kv hkv => absurd hkv (List.not_mem_nil kv)) p hp
  intro l
  induction l with
  | nil =>
    intro d _ p hp
    exact absurd hp (List.not_mem_nil p)
  | cons q l ih =>
    intro d hall p hp
    rw [List.foldl_cons]
    have hall' : ∀ kv ∈ (if (dictGet d (pyLower q.sku)).isSome then d
        else dictSet d (pyLower q.sku)
          ⟨some q.id, q.sku, q.name, q.description, q.active⟩),
        kv.2.id.isSome := by
      by_cases hs : (dictGet d (pyLower q.sku)).isSome
      · rw [if_pos hs]; exact hall
      · rw [if_neg hs]
        intro kv hkv
        rcases mem_dictSet hkv with h | h
        · subst h; rfl
        · exact hall kv h
    rcases List.mem_cons.mp hp with hp | hp
    · subst hp
      have hcov : Cov (if (dictGet d (pyLower p.sku)).isSome then d
          else dictSet d (pyLower p.sku)
            ⟨some p.id, p.sku, p.name, p.description, p.active⟩)
          (pyLower p.sku) := by
        by_cases hs : (dictGet d (pyLower p.sku)).isSome
        · rw [if_pos hs]
          obtain ⟨e, he⟩ := Option.isSome_iff_exists.mp hs
          exact ⟨e, he, hall (pyLower p.sku, e) (dictGet_mem he)⟩
        · rw [if_neg hs]
          exact ⟨_, dictGet_dictSet_self d _ _, rfl⟩
      exact cov_preload_fold l _ _ hcov
    · exact ih _ hall' p hp

theorem partition_step_covered (st : PartitionState) (pd : RowData)
    (hc : Cov st.dict (pyLower pd.sku)) :
    (partition_step st pd).products_to_create = st.products_to_create ∧
    (partition_step st pd).skus_in_create_batch = st.skus_in_create_batch ∧
    ∀ k, Cov st.dict k → Cov (partition_step st pd).dict k := by
  obtain ⟨e, he, hei⟩ := hc
  obtain ⟨i, hi⟩ := Option.isSome_iff_exists.mp hei
  unfold partition_step
  simp only [he, hi]
  by_cases hd : e.name ≠ pd.name ∨ e.description ≠ pd.description ∨
      e.active ≠ pd.active
  · rw [if_pos hd]
    refine ⟨rfl, rfl, ?_⟩
    intro k hk
    obtain ⟨e', he', hei'⟩ := hk
    by_cases hkk : k = pyLower pd.sku
    · subst hkk
      exact ⟨_, dictGet_dictSet_self _ _ _, rfl⟩
    · exact ⟨e', by rw [dictGet_dictSet_ne _ _ _ _ hkk]; exact he', hei'⟩
  · rw [if_neg hd]
    exact ⟨rfl, rfl, fun k hk => hk⟩

theorem partition_fold_covered (mb : List RowData) :
    ∀ (st : PartitionState) (d0 : SkuDict),
    (∀ k, Cov d0 k → Cov st.dict k) →
    (∀ pd ∈ mb, Cov d0 (pyLower pd.sku)) →
    (mb.foldl partition_step st).products_to_create =
      st.products_to_create ∧
    ∀ k, Cov d0 k → Cov (mb.foldl partition_step st).dict k := by
  induction mb with
  | nil => intro st d0 hcov _; exact ⟨rfl, hcov⟩
  | cons pd mb ih =>
    intro st d0 hcov hall
    rw [List.foldl_cons]
    have hc : Cov st.dict (pyLower pd.sku) :=
      hcov _ (hall pd (List.mem_cons.mpr (Or.inl rfl)))
    obtain ⟨hcr, _, hpres⟩ := partition_step_covered st pd hc
    obtain ⟨hcr', hcov'⟩ := ih (partition_step st pd) d0
      (fun k hk => hpres k (hcov k hk))
      (fun q hq => hall q (List.mem_cons.mpr (Or.inr hq)))
    exact ⟨hcr'.trans hcr, hcov'⟩

theorem bulk_update_idSku (ups : List Product) :
    ∀ store : Store, storeIdSku (bulk_update store ups) = storeIdSku store := by
  induction ups with
  | nil => intro s; rfl
  | cons u ups ih =>
    intro s
    unfold bulk_update
    rw [List.foldl_cons]
    have h1 : storeIdSku (List.foldl (fun store u =>
        store.map (fun p =>
          if p.id = u.id then
            { p with name := u.name, description := u.description,
                     active := u.active }
          else p)) (s.map (fun p =>
          if p.id = u.id then
            { p with name := u.name, description := u.description,
                     active := u.active }
          else p)) ups) = storeIdSku (s.map (fun p =>
          if p.id = u.id then
            { p with name := u.name, description := u.description,
                     active := u.active }
          else p)) := ih _
    rw [h1]
    unfold storeIdSku
    rw [List.map_map]
    apply List.map_congr_left
    intro p _
    by_cases h : p.id = u.id <;> simp [h]

theorem process_micro_batch_covered (mb : List RowData) (d : SkuDict)
    (store : Store)
    (hall : ∀ pd ∈ mb, Cov d (pyLower pd.sku)) :
    storeIdSku (process_micro_batch mb d store).2.2.2 = storeIdSku store ∧
    ∀ k, Cov d k → Cov (process_micro_batch mb d store).2.2.1 k := by
  obtain ⟨hcr, hcov⟩ :=
    partition_fold_covered mb ⟨[], [], [], d⟩ d (fun k hk => hk) hall
  unfold process_micro_batch
  simp only [hcr, bulk_create, List.enum_nil, List.map_nil, List.append_nil,
    backfill_ids, List.foldl_nil]
  exact ⟨bulk_update_idSku _ _, hcov⟩

theorem stream_loop_covered (sig : Option Nat) (N bsz : Nat)
    (d0 : SkuDict) (gen : List (CsvRecord × Nat)) :
    ∀ st : StreamState,
    (∀ k, Cov d0 k → Cov st.dict k) →
    (∀ pd ∈ st.micro_batch, Cov d0 (pyLower pd.sku)) →
    (∀ p ∈ gen, (validate_csv_record p.1).1 = true →
      Cov d0 (pyLower (skuOf p.1))) →
    storeIdSku (stream_loop sig N bsz gen st).store = storeIdSku st.store ∧
    (∀ k, Cov d0 k → Cov (stream_loop sig N bsz gen st).dict k) ∧
    ∀ pd ∈ (stream_loop sig N bsz gen st).micro_batch,
      Cov d0 (pyLower pd.sku) := by
  induction gen with
  | nil =>
    intro st h1 h2 _
    rw [stream_loop_nil]
    exact ⟨rfl, h1, h2⟩
  | cons p rest ih =>
    obtain ⟨record, row⟩ := p
    intro st h1 h2 h3
    rw [stream_loop]
    by_cases hc : (st.records_seen + 1) % 1000 = 0 ∧
        sigCancelled sig (st.records_seen + 1) = true
    · rw [if_pos hc]
      exact ⟨rfl, h1, h2⟩
    · rw [if_neg hc]
      rcases hv : validate_csv_record record with ⟨b, msg⟩
      cases b
      · simp only [hv]
        exact ih _ h1 h2
          (fun q hq hvq => h3 q (List.mem_cons.mpr (Or.inr hq)) hvq)
      · simp only [hv]
        have hrow : Cov d0 (pyLower (rowOf record row).sku) :=
          h3 (record, row) (List.mem_cons.mpr (Or.inl rfl)) (by rw [hv])
        have h2' : ∀ pd ∈ st.micro_batch ++ [rowOf record row],
            Cov d0 (pyLower pd.sku) := by
          intro pd hpd
          rcases List.mem_append.mp hpd with hpd | hpd
          · exact h2 pd hpd
          · rw [List.mem_singleton.mp hpd]
            exact hrow
        by_cases hs : bsz ≤ (st.micro_batch ++ [rowOf record row]).length
        · rw [if_pos hs]
          rcases hpm : process_micro_batch
              (st.micro_batch ++ [rowOf record row]) st.dict st.store
            with ⟨processed, errors, dict', store'⟩
          have hcv := process_micro_batch_covered
            (st.micro_batch ++ [rowOf record row]) st.dict st.store
            (fun pd hpd => h1 _ (h2' pd hpd))
          rw [hpm] at hcv
          obtain ⟨hsk, hcov'⟩ := hcv
          obtain ⟨hg1, hg2, hg3⟩ := ih ({
              total_processed := st.total_processed + processed
              total_errors := st.total_errors + errors.length
              all_errors := st.all_errors ++ errors
              micro_batch := []
              batch_count := st.batch_count + 1
              records_seen := st.records_seen + 1
              dict := dict'
              store := store'
              trace := st.trace ++
                [.commit (st.micro_batch ++ [rowOf record row]),
                 .persist (st.records_seen + 1)
                   (progressArgs (st.total_processed + processed) N
                     (st.all_errors ++ errors))]
              cancelled := st.cancelled })
            (fun k hk => hcov' k (h1 k hk))
            (fun pd hpd => absurd hpd (List.not_mem_nil pd))
            (fun q hq hvq => h3 q (List.mem_cons.mpr (Or.inr hq)) hvq)
          exact ⟨hg1.trans hsk, hg2, hg3⟩
        · rw [if_neg hs]
          exact ih _ h1 h2'
            (fun q hq hvq => h3 q (List.mem_cons.mpr (Or.inr hq)) hvq)

theorem process_csv_stream_covered (sig : Option Nat)
    (gen : List (CsvRecord × Nat)) (d0 : SkuDict) (s : Store) (N bsz : Nat)
    (h3 : ∀ p ∈ gen, (validate_csv_record p.1).1 = true →
      Cov d0 (pyLower (skuOf p.1))) :
    storeIdSku (process_csv_stream sig gen d0 s N bsz).store =
      storeIdSku s := by
  have hloop := stream_loop_covered sig N bsz d0 gen
    ⟨0, 0, [], [], 0, 0, d0, s, [], false⟩ (fun k hk => hk)
    (fun pd hpd => absurd hpd (List.not_mem_nil pd)) h3
  unfold process_csv_stream
  rcases hst : stream_loop sig N bsz gen
    ⟨0, 0, [], [], 0, 0, d0, s, [], false⟩ with
    ⟨tp, te, ae, mb, bc, rs, dct, str, tr, cl⟩
  rw [hst] at hloop
  simp only at hloop
  obtain ⟨hsk, hcov, hmbcov⟩ := hloop
  by_cases hmb : mb ≠ []
  · rw [if_pos hmb]
    rcases hpm : process_micro_batch mb dct str with ⟨pr, er, d2, s2⟩
    have hcv := process_micro_batch_covered mb dct str
      (fun pd hpd => hcov _ (hmbcov pd hpd))
    rw [hpm] at hcv
    simp only
    exact hcv.1.trans hsk
  · rw [if_neg hmb]
    exact hsk

theorem mem_storeKeys_of_mem {store : Store} {p : Product} (hp : p ∈ store) :
    pyLower p.sku ∈ storeKeys store :=
  List.mem_map.mpr ⟨p, hp, rfl⟩

theorem partition_step_keys (store : Store) (st : PartitionState)
    (pd : RowData) (hinv : DictInv st.dict store)
    (hset : ∀ k ∈ st.skus_in_create_batch,
      k ∈ st.products_to_create.map (fun c => pyLower c.sku)) :
    DictInv (partition_step st pd).dict store ∧
    (∀ k ∈ (partition_step st pd).skus_in_create_batch,
      k ∈ (partition_step st pd).products_to_create.map
        (fun c => pyLower c.sku)) ∧
    (∃ suf, (partition_step st pd).products_to_create =
      st.products_to_create ++ suf) ∧
    (pyLower pd.sku ∈ storeKeys store ∨
      pyLower pd.sku ∈ (partition_step st pd).products_to_create.map
        (fun c => pyLower c.sku)) := by
  have hcreate : ∀ k ∈ st.skus_in_create_batch ++ [pyLower pd.sku],
      k ∈ (st.products_to_create ++ [pd]).map (fun c => pyLower c.sku) := by
    intro k hk
    rw [List.map_append]
    rcases List.mem_append.mp hk with hk | hk
    · exact List.mem_append.mpr (Or.inl (hset k hk))
    · rw [List.mem_singleton.mp hk]
      exact List.mem_append.mpr (Or.inr (by simp))
  unfold partition_step
  rcases hg : dictGet st.dict (pyLower pd.sku) with _ | e
  · simp only [hg]
    by_cases hin : st.skus_in_create_batch.contains (pyLower pd.sku)
    · rw [if_pos hin]
      refine ⟨hinv, hset, ⟨[], (List.append_nil _).symm⟩, Or.inr ?_⟩
      exact hset _ (by simpa using hin)
    · rw [if_neg hin]
      refine ⟨?_, hcreate, ⟨[pd], rfl⟩, Or.inr ?_⟩
      · intro kv hkv i hi
        rcases mem_dictSet hkv with h | h
        · subst h
          simp at hi
        · exact hinv kv h i hi
      · rw [List.map_append]
        exact List.mem_append.mpr (Or.inr (by simp))
  · simp only [hg]
    rcases hid : e.id with _ | i
    · simp only [hid]
      by_cases hin : st.skus_in_create_batch.contains (pyLower pd.sku)
      · rw [if_pos hin]
        refine ⟨hinv, hset, ⟨[], (List.append_nil _).symm⟩, Or.inr ?_⟩
        exact hset _ (by simpa using hin)
      · rw [if_neg hin]
        refine ⟨hinv, hcreate, ⟨[pd], rfl⟩, Or.inr ?_⟩
        rw [List.map_append]
        exact List.mem_append.mpr (Or.inr (by simp))
    · simp only [hid]
      obtain ⟨p, hp, hpi, hpk⟩ := hinv (pyLower pd.sku, e) (dictGet_mem hg) i
        hid
      have hpk' : pyLower p.sku = pyLower pd.sku := hpk
      have hkey : pyLower pd.sku ∈ storeKeys store := by
        rw [← hpk']
        exact mem_storeKeys_of_mem hp
      by_cases hdif : e.name ≠ pd.name ∨ e.description ≠ pd.description ∨
          e.active ≠ pd.active
      · rw [if_pos hdif]
        refine ⟨?_, hset, ⟨[], (List.append_nil _).symm⟩, Or.inl hkey⟩
        intro kv hkv j hj
        rcases mem_dictSet hkv with h | h
        · subst h
          simp only [Option.some_inj] at hj
          exact ⟨p, hp, by rw [← hj]; exact hpi, hpk⟩
        · exact hinv kv h j hj
      · rw [if_neg hdif]
        exact ⟨hinv, hset, ⟨[], (List.append_nil _).symm⟩, Or.inl hkey⟩

theorem partition_fold_keys (store : Store) (mb : List RowData) :
    ∀ st : PartitionState,
    DictInv st.dict store →
    (∀ k ∈ st.skus_in_create_batch,
      k ∈ st.products_to_create.map (fun c => pyLower c.sku)) →
    DictInv (mb.foldl partition_step st).dict store ∧
    (∃ suf, (mb.foldl partition_step st).products_to_create =
      st.products_to_create ++ suf) ∧
    ∀ pd ∈ mb, pyLower pd.sku ∈ storeKeys store ∨
      pyLower pd.sku ∈ (mb.foldl partition_step st).products_to_create.map
        (fun c => pyLower c.sku) := by
  induction mb with
  | nil =>
    intro st hinv hset
    exact ⟨hinv, ⟨[], (List.append_nil _).symm⟩,
      fun pd hpd => absurd hpd (List.not_mem_nil pd)⟩
  | cons pd mb ih =>
    intro st hinv hset
    rw [List.foldl_cons]
    obtain ⟨hinv', hset', ⟨suf1, hsuf1⟩, hkey⟩ :=
      partition_step_keys store st pd hinv hset
    obtain ⟨hinvf, ⟨suf2, hsuf2⟩, hall⟩ := ih (partition_step st pd)
      hinv' hset'
    refine ⟨hinvf, ⟨suf1 ++ suf2, by rw [hsuf2, hsuf1, List.append_assoc]⟩,
      ?_⟩
    intro q hq
    rcases List.mem_cons.mp hq with hq | hq
    · subst hq
      rcases hkey with hkey | hkey
      · exact Or.inl hkey
      · right
        rw [hsuf2, List.map_append]
        exact List.mem_append.mpr (Or.inl hkey)
    · exact hall q hq

theorem storeKeys_eq_idSku_map (s : Store) :
    storeKeys s = (storeIdSku s).map (fun q => pyLower q.2) := by
  unfold storeKeys storeIdSku
  rw [List.map_map]
  exact List.map_congr_left (fun p _ => rfl)

theorem storeKeys_of_idSku {s1 s2 : Store}
    (h : storeIdSku s1 = storeIdSku s2) : storeKeys s1 = storeKeys s2 := by
  rw [storeKeys_eq_idSku_map, storeKeys_eq_idSku_map, h]

theorem idSku_surj {s1 s2 : Store} (h : storeIdSku s1 = storeIdSku s2) :
    ∀ p ∈ s1, ∃ q ∈ s2, q.id = p.id ∧ q.sku = p.sku := by
  intro p hp
  have hm : (p.id, p.sku) ∈ storeIdSku s2 := by
    rw [← h]
    exact List.mem_map.mpr ⟨p, hp, rfl⟩
  obtain ⟨q, hq, hqe⟩ := List.mem_map.mp hm
  obtain ⟨h1, h2⟩ := Prod.mk.injEq .. ▸ hqe
  exact ⟨q, hq, h1, h2⟩

theorem dictInv_transfer {d : SkuDict} {s s' : Store} (hinv : DictInv d s)
    (hsub : ∀ p ∈ s, ∃ q ∈ s', q.id = p.id ∧ q.sku = p.sku) :
    DictInv d s' := by
  intro kv hkv i hi
  obtain ⟨p, hp, hpi, hpk⟩ := hinv kv hkv i hi
  obtain ⟨q, hq, hqi, hqs⟩ := hsub p hp
  exact ⟨q, hq, by rw [hqi, hpi], by rw [hqs, hpk]⟩

theorem storeKeys_append (s t : Store) :
    storeKeys (s ++ t) = storeKeys s ++ storeKeys t := by
  unfold storeKeys
  rw [List.map_append]

theorem bulk_create_fst (s : Store) (crs : List RowData) :
    (bulk_create s crs).1 = s ++ (bulk_create s crs).2 := rfl

theorem bulk_create_skus (s : Store) (crs : List RowData) :
    (bulk_create s crs).2.map (fun p => pyLower p.sku) =
      crs.map (fun c => pyLower c.sku) := by
  unfold bulk_create
  rw [List.map_map]
  have h : crs.enum.map ((fun p => pyLower p.sku) ∘ (fun p =>
      (⟨nextId s + p.1, p.2.sku, p.2.name, p.2.description, p.2.active⟩ :
        Product))) = crs.enum.map ((fun c => pyLower c.sku) ∘ Prod.snd) :=
    rfl
  rw [h, ← List.map_map, List.enum_map_snd]

theorem backfill_dictInv (created : List Product) :
    ∀ (d : SkuDict) (store : Store), DictInv d store →
    (∀ c ∈ created, c ∈ store) →
    DictInv (backfill_ids d created) store := by
  unfold backfill_ids
  induction created with
  | nil =>
    intro d store hinv _
    exact hinv
  | cons c created ih =>
    intro d store hinv hsub
    rw [List.foldl_cons]
    refine ih _ store ?_ (fun q hq => hsub q (List.mem_cons.mpr (Or.inr hq)))
    rcases hg : dictGet d (pyLower c.sku) with _ | e
    · simp only [hg]
      exact hinv
    · simp only [hg]
      intro kv hkv i hi
      rcases mem_dictSet hkv with h | h
      · subst h
        have hi' : some c.id = some i := hi
        exact ⟨c, hsub c (List.mem_cons.mpr (Or.inl rfl)),
          (Option.some_inj.mp hi').symm ▸ rfl, rfl⟩
      · exact hinv kv h i hi

theorem process_micro_batch_eq (mb : List RowData) (d : SkuDict)
    (store : Store) :
    process_micro_batch mb d store =
      (mb.length, [],
       backfill_ids (mb.foldl partition_step ⟨[], [], [], d⟩).dict
         (bulk_create (bulk_update store
             (mb.foldl partition_step ⟨[], [], [], d⟩).products_to_update)
           (mb.foldl partition_step ⟨[], [], [], d⟩).products_to_create).2,
       (bulk_create (bulk_update store
           (mb.foldl partition_step ⟨[], [], [], d⟩).products_to_update)
         (mb.foldl partition_step ⟨[], [], [], d⟩).products_to_create).1) :=
  rfl

theorem process_micro_batch_keys (mb : List RowData) (d : SkuDict)
    (store : Store) (hinv : DictInv d store) :
    (∀ pd ∈ mb, pyLower pd.sku ∈
      storeKeys (process_micro_batch mb d store).2.2.2) ∧
    (∀ k ∈ storeKeys store,
      k ∈ storeKeys (process_micro_batch mb d store).2.2.2) ∧
    DictInv (process_micro_batch mb d store).2.2.1
      (process_micro_batch mb d store).2.2.2 := by
  obtain ⟨hinvf, ⟨suf, hsuf⟩, hall⟩ := partition_fold_keys store mb
    ⟨[], [], [], d⟩ hinv (fun k hk => absurd hk (List.not_mem_nil k))
  rw [process_micro_batch_eq]
  simp only
  have hbusk : storeKeys (bulk_update store
      (mb.foldl partition_step ⟨[], [], [], d⟩).products_to_update) =
      storeKeys store :=
    storeKeys_of_idSku (bulk_update_idSku _ _)
  have hkeys2 : storeKeys (bulk_create (bulk_update store
      (mb.foldl partition_step ⟨[], [], [], d⟩).products_to_update)
      (mb.foldl partition_step ⟨[], [], [], d⟩).products_to_create).1 =
      storeKeys store ++
        (mb.foldl partition_step ⟨[], [], [],
          d⟩).products_to_create.map (fun c => pyLower c.sku) := by
    rw [bulk_create_fst, storeKeys_append, hbusk]
    have h2 : storeKeys (bulk_create (bulk_update store
        (mb.foldl partition_step ⟨[], [], [], d⟩).products_to_update)
        (mb.foldl partition_step ⟨[], [], [], d⟩).products_to_create).2 =
        (mb.foldl partition_step ⟨[], [], [],
          d⟩).products_to_create.map (fun c => pyLower c.sku) :=
      bulk_create_skus _ _
    rw [h2]
  refine ⟨?_, ?_, ?_⟩
  · intro pd hpd
    rw [hkeys2]
    rcases hall pd hpd with h | h
    · exact List.mem_append.mpr (Or.inl h)
    · exact List.mem_append.mpr (Or.inr h)
  · intro k hk
    rw [hkeys2]
    exact List.mem_append.mpr (Or.inl hk)
  · have hinv2 : DictInv (mb.foldl partition_step ⟨[], [], [], d⟩).dict
        (bulk_create (bulk_update store
          (mb.foldl partition_step ⟨[], [], [], d⟩).products_to_update)
          (mb.foldl partition_step ⟨[], [], [], d⟩).products_to_create).1 := by
      apply dictInv_transfer hinvf
      intro p hp
      obtain ⟨q, hq, hqi, hqs⟩ :=
        idSku_surj (bulk_update_idSku
          (mb.foldl partition_step ⟨[], [], [], d⟩).products_to_update
          store).symm p hp
      refine ⟨q, ?_, hqi, hqs⟩
      rw [bulk_create_fst]
      exact List.mem_append.mpr (Or.inl hq)
    apply backfill_dictInv _ _ _ hinv2
    intro c hc
    rw [bulk_create_fst]
    exact List.mem_append.mpr (Or.inr hc)

theorem stream_loop_keys (N bsz : Nat) (gen : List (CsvRecord × Nat)) :
    ∀ st : StreamState, DictInv st.dict st.store →
    DictInv (stream_loop none N bsz gen st).dict
      (stream_loop none N bsz gen st).store ∧
    (∀ k, k ∈ storeKeys st.store ++
        st.micro_batch.map (fun pd => pyLower pd.sku) →
      k ∈ storeKeys (stream_loop none N bsz gen st).store ++
        (stream_loop none N bsz gen st).micro_batch.map
          (fun pd => pyLower pd.sku)) ∧
    ∀ p ∈ gen, (validate_csv_record p.1).1 = true →
      pyLower (skuOf p.1) ∈
        storeKeys (stream_loop none N bsz gen st).store ++
        (stream_loop none N bsz gen st).micro_batch.map
          (fun pd => pyLower pd.sku) := by
  induction gen with
  | nil =>
    intro st hinv
    rw [stream_loop_nil]
    exact ⟨hinv, fun k hk => hk, fun p hp => absurd hp (List.not_mem_nil p)⟩
  | cons p rest ih =>
    obtain ⟨record, row⟩ := p
    intro st hinv
    rw [stream_loop]
    rw [if_neg (by simp [sigCancelled])]
    rcases hv : validate_csv_record record with ⟨b, msg⟩
    cases b
    · simp only [hv]
      obtain ⟨g1, g2, g3⟩ := ih ({ st with
        records_seen := st.records_seen + 1
        total_errors := st.total_errors + 1
        all_errors := st.all_errors ++
          [⟨some row, some (pyStrip ((recGet record "Sku").getD "")),
            msg.getD ""⟩] }) hinv
      refine ⟨g1, g2, ?_⟩
      intro q hq hvq
      rcases List.mem_cons.mp hq with hq | hq
      · subst hq
        rw [hv] at hvq
        exact absurd hvq (by simp)
      · exact g3 q hq hvq
    · simp only [hv]
      by_cases hs : bsz ≤ (st.micro_batch ++ [rowOf record row]).length
      · rw [if_pos hs]
        rcases hpm : process_micro_batch
            (st.micro_batch ++ [rowOf record row]) st.dict st.store
          with ⟨processed, errors, dict', store'⟩
        have hk := process_micro_batch_keys
          (st.micro_batch ++ [rowOf record row]) st.dict st.store hinv
        rw [hpm] at hk
        obtain ⟨hkall, hkmono, hkinv⟩ := hk
        obtain ⟨g1, g2, g3⟩ := ih ({
            total_processed := st.total_processed + processed
            total_errors := st.total_errors + errors.length
            all_errors := st.all_errors ++ errors
            micro_batch := []
            batch_count := st.batch_count + 1
            records_seen := st.records_seen + 1
            dict := dict'
            store := store'
            trace := st.trace ++
              [.commit (st.micro_batch ++ [rowOf record row]),
               .persist (st.records_seen + 1)
                 (progressArgs (st.total_processed + processed) N
                   (st.all_errors ++ errors))]
            cancelled := st.cancelled }) hkinv
        refine ⟨g1, ?_, ?_⟩
        · intro k hk2
          apply g2
          simp only [List.map_nil, List.append_nil]
          rcases List.mem_append.mp hk2 with h | h
          · exact hkmono k h
          · obtain ⟨pd, hpd, hpdk⟩ := List.mem_map.mp h
            rw [← hpdk]
            exact hkall pd (List.mem_append.mpr (Or.inl hpd))
        · intro q hq hvq
          rcases List.mem_cons.mp hq with hq | hq
          · subst hq
            apply g2
            simp only [List.map_nil, List.append_nil]
            exact hkall (rowOf record row)
              (List.mem_append.mpr (Or.inr (by simp)))
          · exact g3 q hq hvq
      · rw [if_neg hs]
        obtain ⟨g1, g2, g3⟩ := ih ({ st with
          records_seen := st.records_seen + 1
          micro_batch := st.micro_batch ++ [rowOf record row] }) hinv
        refine ⟨g1, ?_, ?_⟩
        · intro k hk2
          apply g2
          simp only [List.map_append]
          rcases List.mem_append.mp hk2 with h | h
          · exact List.mem_append.mpr (Or.inl h)
          · exact List.mem_append.mpr
              (Or.inr (List.mem_append.mpr (Or.inl h)))
        · intro q hq hvq
          rcases List.mem_cons.mp hq with hq | hq
          · subst hq
            apply g2
            simp only [List.map_append]
            refine List.mem_append.mpr (Or.inr (List.mem_append.mpr
              (Or.inr ?_)))
            simp only [List.map_cons, List.map_nil, List.mem_singleton]
            rfl
          · exact g3 q hq hvq

theorem process_csv_stream_keys (gen : List (CsvRecord × Nat)) (d0 : SkuDict)
    (s : Store) (N bsz : Nat) (hinv : DictInv d0 s) :
    ∀ p ∈ gen, (validate_csv_record p.1).1 = true →
      pyLower (skuOf p.1) ∈
        storeKeys (process_csv_stream none gen d0 s N bsz).store := by
  have hloop := stream_loop_keys N bsz gen
    ⟨0, 0, [], [], 0, 0, d0, s, [], false⟩ hinv
  unfold process_csv_stream
  rcases hst : stream_loop none N bsz gen
    ⟨0, 0, [], [], 0, 0, d0, s, [], false⟩ with
    ⟨tp, te, ae, mb, bc, rs, dct, str, tr, cl⟩
  rw [hst] at hloop
  simp only at hloop
  obtain ⟨hinv', hmono, hall⟩ := hloop
  by_cases hmb : mb ≠ []
  · rw [if_pos hmb]
    rcases hpm : process_micro_batch mb dct str with ⟨pr, er, d2, s2⟩
    have hk := process_micro_batch_keys mb dct str hinv'
    rw [hpm] at hk
    obtain ⟨hkall, hkmono, -⟩ := hk
    simp only
    intro p hp hvp
    rcases List.mem_append.mp (hall p hp hvp) with h | h
    · exact hkmono _ h
    · obtain ⟨pd, hpd, hpdk⟩ := List.mem_map.mp h
      rw [← hpdk]
      exact hkall pd hpd
  · rw [if_neg hmb]
    simp only
    intro p hp hvp
    rw [not_ne_iff] at hmb
    rcases List.mem_append.mp (hall p hp hvp) with h | h
    · exact h
    · rw [hmb] at h
      simp at h

set_option maxHeartbeats 1000000 in
/-- C4: re-running the import of the same file against the store produced by
the first run is idempotent at the catalog level — the second run creates no
new catalog entry and preserves every row's identity (the `(id, sku)`
projection of the catalog is unchanged, every case-folded key of the file
resolving to the identity the first run assigned) — and a row whose name,
description and active flag all equal the cached snapshot is skipped by the
no-op diff check of `_process_micro_batch`, producing no update write. -/
theorem second_run_idempotent (file : CsvFile) (store0 : Store)
    (hh : validate_csv_headers file.headers = (true, none)) :
    storeIdSku (process_csv_import_task file
        (process_csv_import_task file store0 none newImportJob).store
        none newImportJob).store =
      storeIdSku
        (process_csv_import_task file store0 none newImportJob).store ∧
    ∀ (st : PartitionState) (pd : RowData) (e : ProductRec) (i : Nat),
      dictGet st.dict (pyLower pd.sku) = some e → e.id = some i →
      e.name = pd.name → e.description = pd.description →
      e.active = pd.active → partition_step st pd = st := by
  constructor
  · have hstore1 :
        (process_csv_import_task file store0 none newImportJob).store =
        (process_csv_stream none (csvGen file) (preload_existing_skus store0)
          store0 file.rows.length 500).store := by
      rw [task_none_shape file store0 hh]
    have hkeys := process_csv_stream_keys (csvGen file)
      (preload_existing_skus store0) store0 file.rows.length 500
      (preload_dictInv store0)
    have hcov : ∀ p ∈ csvGen file, (validate_csv_record p.1).1 = true →
        Cov (preload_existing_skus (process_csv_stream none (csvGen file)
          (preload_existing_skus store0) store0 file.rows.length 500).store)
          (pyLower (skuOf p.1)) := by
      intro p hp hv
      obtain ⟨q, hq, hqk⟩ := List.mem_map.mp (hkeys p hp hv)
      rw [← hqk]
      exact preload_covers _ q hq
    have hid := process_csv_stream_covered none (csvGen file)
      (preload_existing_skus (process_csv_stream none (csvGen file)
        (preload_existing_skus store0) store0 file.rows.length 500).store)
      (process_csv_stream none (csvGen file) (preload_existing_skus store0)
        store0 file.rows.length 500).store file.rows.length 500 hcov
    have hstore2 :
        (process_csv_import_task file
          (process_csv_stream none (csvGen file)
            (preload_existing_skus store0) store0
            file.rows.length 500).store none newImportJob).store =
        (process_csv_stream none (csvGen file)
          (preload_existing_skus (process_csv_stream none (csvGen file)
            (preload_existing_skus store0) store0
            file.rows.length 500).store)
          (process_csv_stream none (csvGen file)
            (preload_existing_skus store0) store0
            file.rows.length 500).store file.rows.length 500).store := by
      rw [task_none_shape file _ hh]
    rw [hstore1, hstore2]
    exact hid
  · intro st pd e i hg hi hn hd ha
    have hc : ¬(e.name ≠ pd.name ∨ e.description ≠ pd.description ∨
        e.active ≠ pd.active) := by
      push_neg
      exact ⟨hn, hd, ha⟩
    unfold partition_step
    simp only [hg, hi]
    rw [if_neg hc]

/-- Witness for C4: the 3-row file against the empty store — the header
check passes and the second run's catalog `(id, sku)` projection equals the
first run's. -/
theorem second_run_idempotent_witness :
    validate_csv_headers file3.headers = (true, none) ∧
    storeIdSku (process_csv_import_task file3
        (process_csv_import_task file3 [] none newImportJob).store
        none newImportJob).store =
      storeIdSku (process_csv_import_task file3 [] none newImportJob).store :=
  ⟨rfl, (second_run_idempotent file3 [] rfl).1⟩

end ImporterModel
